import Mathlib

/-!
# The clar test runner of `code128` (`src/clar_main.c`)

A shallow embedding of the execution engine, the error ledger, the category
filter and the command line of `clar_main.c`, and theorems about them.

Conventions of the embedding.

* A C string is the list of its `char`s (`CStr`); a pointer that may be `NULL`
  is an `Option`.
* The static variables `_clar` and `_clar_categorize_enabled` and everything
  written to `stdout`/`stderr` are the fields of one record, `Clar`, that is
  passed from call to call.  The singly linked list hanging from
  `_clar.errors` with its tail pointer `_clar.last_error` is the field
  `errors`, a list in insertion order (`[]` stands for both pointers `NULL`).
* Test, setup and teardown callbacks are code outside `clar_main.c`; what they
  can do to the runner is call its public entry points.  A callback is
  therefore given by the sequence of entry point calls it makes when each of
  them returns (`Call`), and a function pointer is an address that the table
  `Code` maps to that sequence.
* `longjmp` and `exit` are results (`Flow`) that every caller propagates.
* `int` counters are unbounded integers, except in `clar_parse_args` where
  the suite number is computed with 32 bit wrap-around.
* The sandbox (`clar_sandbox`, `clar_unsandbox`, the fixture functions) works
  on the file system and is left out: `clar_test` takes the result of
  `clar_sandbox()` as an argument and records the call of `clar_unsandbox`.
-/

namespace ClarMain

/-! ## Strings -/

/-- The contents of a NUL terminated C string. -/
abbrev CStr := List Char

/-- The C library `strcmp`: difference of the first pair of bytes that differ,
the terminating NUL counting as 0. -/
def strcmp : CStr → CStr → Int
  | [], [] => 0
  | [], b :: _ => - (b.toNat : Int)
  | a :: _, [] => (a.toNat : Int)
  | a :: as, b :: bs => if a = b then strcmp as bs else (a.toNat : Int) - (b.toNat : Int)

/-- The C library `strcasecmp` in the C locale: `strcmp` on the lower-cased
bytes. -/
def strcasecmp : CStr → CStr → Int
  | [], [] => 0
  | [], b :: _ => - (b.toLower.toNat : Int)
  | a :: _, [] => (a.toLower.toNat : Int)
  | a :: as, b :: bs =>
    if a.toLower = b.toLower then strcasecmp as bs
    else (a.toLower.toNat : Int) - (b.toLower.toNat : Int)

/-- The C library `strncmp(a, b, n)`. -/
def strncmp : CStr → CStr → Nat → Int
  | _, _, 0 => 0
  | [], [], _ + 1 => 0
  | [], b :: _, _ + 1 => - (b.toNat : Int)
  | a :: _, [], _ + 1 => (a.toNat : Int)
  | a :: as, b :: bs, n + 1 =>
    if a = b then strncmp as bs n else (a.toNat : Int) - (b.toNat : Int)

/-- The character `'`. -/
def quote : Char := Char.ofNat 39

/-- What `printf("%s", p)` writes: the string, or `(null)` for a null pointer
(the C library's behaviour). -/
def fmt_s : Option CStr → CStr
  | some s => s
  | none => "(null)".toList

/-- What `printf("%d", i)` writes. -/
def fmt_d (i : Int) : CStr :=
  if i < 0 then '-' :: Nat.toDigits 10 i.natAbs else Nat.toDigits 10 i.toNat

/-- The text left in `buf` by `snprintf(buf, sz, "'%s' != '%s'", s1, s2)`: at
most `sz - 1` bytes of the formatted text. -/
def snprint_eq_s (sz : Nat) (s1 s2 : Option CStr) : CStr :=
  ((quote :: fmt_s s1) ++ "' != '".toList ++ fmt_s s2 ++ [quote]).take (sz - 1)

/-- The text left in `buf` by `snprintf(buf, sz, "%d != %d", i1, i2)`. -/
def snprint_eq_i (sz : Nat) (i1 i2 : Int) : CStr :=
  (fmt_d i1 ++ " != ".toList ++ fmt_d i2).take (sz - 1)

/-! ## Data -/

/-- The record `struct clar_error` (the `next` link is the list order of the
ledger). -/
structure clar_error where
  test : Option CStr
  test_number : Int
  suite : Option CStr
  file : CStr
  line_number : Int
  error_msg : CStr
  description : Option CStr
deriving DecidableEq, Repr

/-- The record `struct clar_func`: a name and a function pointer (`none` is
`NULL`). -/
structure clar_func where
  name : CStr
  ptr : Option Nat
deriving DecidableEq, Repr

/-- A `const char *` that points to a string: the address it holds and the
string stored there. -/
structure CharPtr where
  addr : Nat
  str : CStr
deriving DecidableEq, Repr

/-- The record `struct clar_suite` (its field `initialize` is spelled
`initialise` here).  `categories` is `none` for a null pointer
and otherwise the entries of the array before its terminating `NULL`; `tests`
holds the `test_count` entries of the test array. -/
structure clar_suite where
  index : Int
  name : CStr
  initialise : clar_func
  cleanup : clar_func
  categories : Option (List CharPtr)
  tests : List clar_func
deriving DecidableEq, Repr

/-- The record `clar_category_list`: `names` holds the `count` entries of the
array, `alloc` is the allocated capacity. -/
structure clar_category_list where
  names : List CharPtr
  alloc : Int
deriving DecidableEq, Repr

/-- The field `count` of a `clar_category_list`. -/
def clar_category_list.count (list : clar_category_list) : Int := list.names.length

/-- What the runner does that can be observed from outside: every call of a
`clar_print_*` function or of `printf`, and every call of a callback through a
function pointer (with the role of the pointer). -/
inductive Event where
  | print_init (test_count suite_count : Int) (suite_names : CStr)
  | print_shutdown (test_count suite_count error_count : Int)
  | print_error (num : Int) (error : clar_error)
  | print_ontest (test_name : CStr) (test_number : Int) (failed : Bool)
  | print_onsuite (suite_name : CStr) (suite_index : Int)
  | print_onabort (msg : CStr)
  | usage (arg : CStr)
  | printf (text : CStr)
  | call_initialise (ptr : Nat)
  | call_test (ptr : Nat)
  | call_local_cleanup (ptr : Nat) (payload : Option Nat)
  | call_cleanup (ptr : Nat)
  | unsandbox
deriving DecidableEq, Repr

/-- The static variables of the runner: the fields of `_clar` (without the
`jmp_buf`), `_clar_categorize_enabled`, and the events so far. -/
structure Clar where
  active_test : Option CStr
  active_suite : Option CStr
  suite_errors : Int
  total_errors : Int
  test_count : Int
  report_errors_only : Int
  exit_on_error : Int
  errors : List clar_error
  local_cleanup : Option Nat
  local_cleanup_payload : Option Nat
  trampoline_enabled : Int
  categorize_enabled : clar_category_list
  output : List Event
deriving DecidableEq, Repr

/-- The state of the static variables when the process starts (all zero). -/
def Clar.init : Clar :=
  { active_test := none, active_suite := none, suite_errors := 0, total_errors := 0,
    test_count := 0, report_errors_only := 0, exit_on_error := 0, errors := [],
    local_cleanup := none, local_cleanup_payload := none, trampoline_enabled := 0,
    categorize_enabled := { names := [], alloc := 0 }, output := [] }

/-- How a piece of code ends: it returns, it leaves through `longjmp` to
`_clar.trampoline`, it ends the process with `exit(status)`, or it calls a
null function pointer. -/
inductive Flow where
  | ret
  | longjmp
  | exit (status : Int)
  | fault
deriving DecidableEq, Repr

/-- One call of an entry point of the runner made by a callback, with its
arguments. -/
inductive Call where
  | clar__assert (condition : Int) (file : CStr) (line : Int) (error_msg : CStr)
      (description : Option CStr) (should_abort : Int)
  | clar__assert_equal_s (s1 s2 : Option CStr) (file : CStr) (line : Int) (err : CStr)
      (should_abort : Int)
  | clar__assert_equal_i (i1 i2 : Int) (file : CStr) (line : Int) (err : CStr)
      (should_abort : Int)
  | cl_set_cleanup (cleanup : Option Nat) (payload : Option Nat)
deriving DecidableEq, Repr

/-- The code behind the function pointers: the calls made by the function at
an address when it is called with an argument (`none` for a `void (*)(void)`
function). -/
abbrev Code := Nat → Option Nat → List Call

/-! ## The error ledger and the assertions -/

/-- The loop of `clar_report_errors`: `clar_print_error(i++, error)` for each
record from `error` on. -/
def report_loop (i : Int) : List clar_error → List Event
  | [] => []
  | error :: next => Event.print_error i error :: report_loop (i + 1) next

/-- The function `clar_report_errors`. -/
def clar_report_errors (c : Clar) : Clar :=
  { c with output := c.output ++ report_loop 1 c.errors, errors := [] }

/-- The function `clar__assert`. -/
def clar__assert (c : Clar) (condition : Int) (file : CStr) (line : Int) (error_msg : CStr)
    (description : Option CStr) (should_abort : Int) : Flow × Clar :=
  if condition ≠ 0 then (Flow.ret, c)
  else
    let error : clar_error :=
      { test := c.active_test, test_number := c.test_count, suite := c.active_suite,
        file := file, line_number := line, error_msg := error_msg,
        description := description }
    let c := { c with errors := c.errors ++ [error],
                      suite_errors := c.suite_errors + 1,
                      total_errors := c.total_errors + 1 }
    if should_abort ≠ 0 then
      if c.trampoline_enabled = 0 then
        let c := { c with output := c.output ++
          [Event.print_onabort "Fatal error: a cleanup method raised an exception.".toList] }
        (Flow.exit (-1), clar_report_errors c)
      else (Flow.longjmp, c)
    else (Flow.ret, c)

/-- The value of the local `match` of `clar__assert_equal_s`:
`(s1 == NULL || s2 == NULL) ? (s1 == s2) : (strcmp(s1, s2) == 0)`. -/
def match_s : Option CStr → Option CStr → Bool
  | some a, some b => strcmp a b = 0
  | none, none => true
  | _, _ => false

/-- The function `clar__assert_equal_s`. -/
def clar__assert_equal_s (c : Clar) (s1 s2 : Option CStr) (file : CStr) (line : Int)
    (err : CStr) (should_abort : Int) : Flow × Clar :=
  let is_match := match_s s1 s2
  if !is_match then
    let buf := snprint_eq_s 4096 s1 s2
    clar__assert c 0 file line err (some buf) should_abort
  else (Flow.ret, c)

/-- The function `clar__assert_equal_i`. -/
def clar__assert_equal_i (c : Clar) (i1 i2 : Int) (file : CStr) (line : Int)
    (err : CStr) (should_abort : Int) : Flow × Clar :=
  if i1 ≠ i2 then
    let buf := snprint_eq_i 128 i1 i2
    clar__assert c 0 file line err (some buf) should_abort
  else (Flow.ret, c)

/-- The function `cl_set_cleanup`. -/
def cl_set_cleanup (c : Clar) (cleanup : Option Nat) (payload : Option Nat) : Clar :=
  { c with local_cleanup := cleanup, local_cleanup_payload := payload }

/-- One call made by a callback. -/
def run_call (c : Clar) : Call → Flow × Clar
  | Call.clar__assert condition file line error_msg description should_abort =>
    clar__assert c condition file line error_msg description should_abort
  | Call.clar__assert_equal_s s1 s2 file line err should_abort =>
    clar__assert_equal_s c s1 s2 file line err should_abort
  | Call.clar__assert_equal_i i1 i2 file line err should_abort =>
    clar__assert_equal_i c i1 i2 file line err should_abort
  | Call.cl_set_cleanup cleanup payload => (Flow.ret, cl_set_cleanup c cleanup payload)

/-- The body of a callback: its calls one after the other, as long as each
returns. -/
def run_calls (c : Clar) : List Call → Flow × Clar
  | [] => (Flow.ret, c)
  | k :: rest =>
    match run_call c k with
    | (Flow.ret, c1) => run_calls c1 rest
    | r => r

/-! ## The category filter -/

/-- The macro `CLAR_CATEGORY_DEFAULT`: the string literal `"default"`, stored
at the address `lit`. -/
def CLAR_CATEGORY_DEFAULT (lit : Nat) : CharPtr := { addr := lit, str := "default".toList }

/-- The loop of `clar_category_in_list` over `list->names[i]`, `i < count`. -/
def in_list_loop (cat : CharPtr) : List CharPtr → Int
  | [] => 0
  | name :: rest => if strcasecmp cat.str name.str = 0 then 1 else in_list_loop cat rest

/-- The function `clar_category_in_list`. -/
def clar_category_in_list (list : clar_category_list) (cat : CharPtr) : Int :=
  in_list_loop cat list.names

/-- The function `clar_category_add_to_list` (`realloc` is taken to succeed). -/
def clar_category_add_to_list (list : clar_category_list) (cat : CharPtr) :
    clar_category_list :=
  if clar_category_in_list list cat ≠ 0 then list
  else
    let list := if list.count ≥ list.alloc then { list with alloc := list.alloc + 10 } else list
    { list with names := list.names ++ [cat] }

/-- The function `clar_category_enable`, on the value of
`_clar_categorize_enabled`. -/
def clar_category_enable (enabled : clar_category_list) (category : CharPtr) :
    clar_category_list :=
  clar_category_add_to_list enabled category

/-- The inner loop of `clar_category_enable_all` over a category array that is
not null: `for (cat = suites[i].categories; cat && *cat; cat++)`. -/
def enable_cats (enabled : clar_category_list) : List CharPtr → clar_category_list
  | [] => enabled
  | cat :: rest => enable_cats (clar_category_enable enabled cat) rest

/-- The outer loop of `clar_category_enable_all` over `suites[i]`,
`i < suite_count`; the inner loop makes no step when `categories` is null. -/
def enable_suites (enabled : clar_category_list) : List clar_suite → clar_category_list
  | [] => enabled
  | suite :: rest =>
    match suite.categories with
    | none => enable_suites enabled rest
    | some categories => enable_suites (enable_cats enabled categories) rest

/-- The function `clar_category_enable_all`; `suites` holds the `suite_count`
entries of the array. -/
def clar_category_enable_all (lit : Nat) (enabled : clar_category_list)
    (suites : List clar_suite) : clar_category_list :=
  enable_suites (clar_category_enable enabled (CLAR_CATEGORY_DEFAULT lit)) suites

/-- The bytes of a little-endian pointer of `n` bytes holding `addr`, up to
its first zero byte. -/
def ptr_bytes : Nat → Nat → CStr
  | 0, _ => []
  | n + 1, addr =>
    if addr % 256 = 0 then [] else Char.ofNat (addr % 256) :: ptr_bytes n (addr / 256)

/-- The C string that starts at the address of an array slot holding the
pointer `p`: the bytes of the 64 bit little-endian pointer itself, up to its
first zero byte. -/
def slot_bytes (p : CharPtr) : CStr := ptr_bytes 8 p.addr

/-- The function `clar_category_cmp`; `a` and `b` are the strings found at the
two addresses it is given. -/
def clar_category_cmp (a b : CStr) : Int := - strcasecmp a b

/-- The C library `qsort` on an array of pointers: `compar` is called with the
addresses of two slots of the array, so it sees the slots, not the strings the
slots point to.  The result is the array sorted by insertion. -/
def qsort (base : List CharPtr) (compar : CStr → CStr → Int) : List CharPtr :=
  List.insertionSort (fun p q => compar (slot_bytes p) (slot_bytes q) ≤ 0) base

/-- The function `clar_category_print_enabled`. -/
def clar_category_print_enabled (c : Clar) (pfx : CStr) : Clar :=
  let names := qsort c.categorize_enabled.names clar_category_cmp
  { c with categorize_enabled := { c.categorize_enabled with names := names },
           output := c.output ++ names.map (fun n => Event.printf (pfx ++ n.str ++ ['\n'])) }

/-- The loop of `clar_category_is_suite_enabled` over `*scan`. -/
def scan_loop (enabled : clar_category_list) : List CharPtr → Int
  | [] => 0
  | scan :: rest => if clar_category_in_list enabled scan ≠ 0 then 1 else scan_loop enabled rest

/-- The function `clar_category_is_suite_enabled`: its result and the new
value of `_clar_categorize_enabled`. -/
def clar_category_is_suite_enabled (lit : Nat) (enabled : clar_category_list)
    (suite : clar_suite) : Int × clar_category_list :=
  let enabled :=
    if enabled.count = 0 then clar_category_enable enabled (CLAR_CATEGORY_DEFAULT lit)
    else enabled
  match suite.categories with
  | none => (clar_category_in_list enabled (CLAR_CATEGORY_DEFAULT lit), enabled)
  | some categories => (scan_loop enabled categories, enabled)

/-! ## The execution engine -/

/-- The program the runner is linked into: the code of the callbacks, the
generated tables `_clar_suites` (with `_clar_suite_count` entries) and
`_clar_callback_count`, and the address of the string literal `"default"`. -/
structure Image where
  code : Code
  _clar_suites : List clar_suite
  _clar_callback_count : Int
  default_lit : Nat

/-- The variable `_clar_suite_count`. -/
def Image._clar_suite_count (img : Image) : Nat := img._clar_suites.length

/-- A call through a function pointer: the event of the call, then the calls
the function makes. -/
def call_ptr (img : Image) (c : Clar) (ev : Event) (ptr : Nat) (arg : Option Nat) :
    Flow × Clar :=
  run_calls { c with output := c.output ++ [ev] } (img.code ptr arg)

/-- The block guarded by `setjmp(_clar.trampoline) == 0` in `clar_run_test`. -/
def run_region (img : Image) (c : Clar) (test initialise : clar_func) : Flow × Clar :=
  let r :=
    match initialise.ptr with
    | some f => call_ptr img c (Event.call_initialise f) f none
    | none => (Flow.ret, c)
  match r with
  | (Flow.ret, c) =>
    match test.ptr with
    | some f => call_ptr img c (Event.call_test f) f none
    | none => (Flow.fault, c)
  | r => r

/-- The end of `clar_run_test`, from `_clar.test_count++` on. -/
def finish_test (c : Clar) (test : clar_func) (error_st : Int) : Clar :=
  let c := { c with test_count := c.test_count + 1 }
  let c := { c with local_cleanup := none, local_cleanup_payload := none }
  if c.report_errors_only ≠ 0 then clar_report_errors c
  else { c with output := c.output ++
    [Event.print_ontest test.name c.test_count (decide (c.suite_errors > error_st))] }

/-- The part of `clar_run_test` after the guarded block, where control also
arrives from `longjmp`. -/
def after_region (img : Image) (c : Clar) (test cleanup : clar_func) (error_st : Int) :
    Flow × Clar :=
  let c := { c with trampoline_enabled := 0 }
  let r :=
    match c.local_cleanup with
    | some f => call_ptr img c (Event.call_local_cleanup f c.local_cleanup_payload) f
        c.local_cleanup_payload
    | none => (Flow.ret, c)
  match r with
  | (Flow.ret, c) =>
    let r :=
      match cleanup.ptr with
      | some f => call_ptr img c (Event.call_cleanup f) f none
      | none => (Flow.ret, c)
    match r with
    | (Flow.ret, c) => (Flow.ret, finish_test c test error_st)
    | r => r
  | r => r

/-- The function `clar_run_test`. -/
def clar_run_test (img : Image) (c : Clar) (test initialise cleanup : clar_func) :
    Flow × Clar :=
  let error_st := c.suite_errors
  let c := { c with trampoline_enabled := 1 }
  match run_region img c test initialise with
  | (Flow.ret, c) => after_region img c test cleanup error_st
  | (Flow.longjmp, c) => after_region img c test cleanup error_st
  | r => r

/-- The loop of `clar_run_suite` over `test[i]`, `i < suite->test_count`. -/
def run_tests (img : Image) (suite : clar_suite) (c : Clar) : List clar_func → Flow × Clar
  | [] => (Flow.ret, c)
  | test :: rest =>
    let c := { c with active_test := some test.name }
    match clar_run_test img c test suite.initialise suite.cleanup with
    | (Flow.ret, c) =>
      if c.exit_on_error ≠ 0 ∧ c.total_errors ≠ 0 then (Flow.ret, c)
      else run_tests img suite c rest
    | r => r

/-- The function `clar_run_suite`. -/
def clar_run_suite (img : Image) (c : Clar) (suite : clar_suite) : Flow × Clar :=
  let r := clar_category_is_suite_enabled img.default_lit c.categorize_enabled suite
  let c := { c with categorize_enabled := r.2 }
  if r.1 = 0 then (Flow.ret, c)
  else if c.exit_on_error ≠ 0 ∧ c.total_errors ≠ 0 then (Flow.ret, c)
  else
    let c :=
      if c.report_errors_only = 0 then
        { c with output := c.output ++ [Event.print_onsuite suite.name suite.index] }
      else c
    let c := { c with active_suite := some suite.name }
    let c := { c with suite_errors := 0 }
    run_tests img suite c suite.tests

/-! ## The command line -/

/-- The byte `s[i]` of a C string; `s[length]` is the terminating NUL. -/
def char_at (s : CStr) (i : Nat) : Char := s.getD i (Char.ofNat 0)

/-- The value an `int` holds after a computation with mathematical result `x`:
two's complement wrap-around to 32 bits. -/
def wrap_int (x : Int) : Int := (x + 2 ^ 31) % 2 ^ 32 - 2 ^ 31

/-- The conversion `(size_t)num` of an `int` (64 bit `size_t`). -/
def size_t_of (num : Int) : Nat := (num % 2 ^ 64).toNat

/-- The function `clar_usage`: prints the usage text and calls `exit(-1)`. -/
def clar_usage (c : Clar) (arg : CStr) : Flow × Clar :=
  (Flow.exit (-1), { c with output := c.output ++ [Event.usage arg] })

/-- The function `clar_print_onabort` with the formatted message. -/
def clar_print_onabort (c : Clar) (msg : CStr) : Clar :=
  { c with output := c.output ++ [Event.print_onabort msg] }

/-- The locals `num`, `len`, `is_num` and `has_colon` of the case `s` of
`clar_parse_args`. -/
structure SuiteArg where
  num : Int
  len : Nat
  is_num : Int
  has_colon : Int
deriving DecidableEq, Repr

/-- The loop `for (argument += offset; *argument; ++argument)` of the case
`s`. -/
def scan_suite_arg (st : SuiteArg) : CStr → SuiteArg
  | [] => st
  | ch :: rest =>
    let st := { st with len := st.len + 1 }
    if '0' ≤ ch ∧ ch ≤ '9' then
      scan_suite_arg
        { st with num := wrap_int (wrap_int (st.num * 10) + ((ch.toNat : Int) - ('0'.toNat : Int))) }
        rest
    else
      scan_suite_arg { st with is_num := 0, has_colon := if ch = ':' then 1 else st.has_colon }
        rest

/-- The loop of the case `s` that runs every suite whose name starts with the
argument. -/
def by_start_loop (img : Image) (argument : CStr) (len : Nat) (c : Clar) :
    List clar_suite → Flow × Clar
  | [] => (Flow.ret, c)
  | suite :: rest =>
    if strncmp argument suite.name len = 0 then
      match clar_run_suite img c suite with
      | (Flow.ret, c) => by_start_loop img argument len c rest
      | r => r
    else by_start_loop img argument len c rest

/-- The loop of the case `s` that runs the first suite whose name is the
argument. -/
def by_name_loop (img : Image) (argument : CStr) (c : Clar) : List clar_suite → Flow × Clar
  | [] => (Flow.ret, c)
  | suite :: rest =>
    if strcmp argument suite.name = 0 then clar_run_suite img c suite
    else by_name_loop img argument c rest

/-- The case `s` of the `switch` in `clar_parse_args`, for the argument
`argv[i]`. -/
def parse_suite_arg (img : Image) (c : Clar) (argv0 : CStr) (arg : CharPtr) : Flow × Clar :=
  let offset := if char_at arg.str 2 = '=' then 3 else 2
  let st := scan_suite_arg { num := 0, len := 0, is_num := 1, has_colon := 0 }
    (arg.str.drop offset)
  let argument := arg.str.drop offset
  let r :=
    if st.len = 0 then clar_usage c argv0
    else if st.is_num ≠ 0 then
      if size_t_of st.num ≥ img._clar_suite_count then
        (Flow.exit (-1), clar_print_onabort c
          ("Suite number ".toList ++ fmt_d st.num ++ " does not exist.\n".toList))
      else
        match img._clar_suites.get? st.num.toNat with
        | some suite => clar_run_suite img c suite
        | none => (Flow.fault, c)
    else if st.has_colon = 0 ∨ char_at arg.str (offset - 1) = ':' then
      by_start_loop img argument st.len c img._clar_suites
    else by_name_loop img argument c img._clar_suites
  match r with
  | (Flow.ret, c) =>
    if c.active_suite = none then
      (Flow.exit (-1), clar_print_onabort c
        ("No suite matching ".toList ++ quote :: argument ++ quote :: " found.\n".toList))
    else (Flow.ret, c)
  | r => r

/-- The text written by `printf(" %3d: %s\n", (int)j, name)`. -/
def suite_line (j : Nat) (name : CStr) : CStr :=
  let d := fmt_d j
  ' ' :: List.replicate (3 - d.length) ' ' ++ d ++ ": ".toList ++ name ++ ['\n']

/-- The case `l` of the `switch` in `clar_parse_args`. -/
def parse_list_arg (img : Image) (c : Clar) : Flow × Clar :=
  let c := { c with output := c.output ++
    [Event.printf "Test suites (use -s<name> to run just one):\n".toList] }
  let c := { c with output := c.output ++
    img._clar_suites.enum.map (fun (js : Nat × clar_suite) => Event.printf (suite_line js.1 js.2.name)) }
  let c := { c with output := c.output ++
    [Event.printf "\nCategories (use -i<category> to include):\n".toList] }
  let c := { c with categorize_enabled :=
    clar_category_enable_all img.default_lit c.categorize_enabled img._clar_suites }
  let c := clar_category_print_enabled c " - ".toList
  (Flow.exit 0, c)

/-- The body of the loop of `clar_parse_args` for the argument `argv[i]`. -/
def parse_arg (img : Image) (c : Clar) (argv0 : CStr) (arg : CharPtr) : Flow × Clar :=
  if char_at arg.str 0 ≠ '-' then clar_usage c argv0
  else
    let sw := char_at arg.str 1
    if sw = 's' then parse_suite_arg img c argv0 arg
    else if sw = 'q' then (Flow.ret, { c with report_errors_only := 1 })
    else if sw = 'Q' then (Flow.ret, { c with exit_on_error := 1 })
    else if sw = 'i' then
      let offset := if char_at arg.str 2 = '=' then 3 else 2
      if strcasecmp "all".toList (arg.str.drop offset) = 0 then
        (Flow.ret, { c with categorize_enabled :=
          clar_category_enable_all img.default_lit c.categorize_enabled img._clar_suites })
      else
        let category : CharPtr := CharPtr.mk (arg.addr + offset) (arg.str.drop offset)
        (Flow.ret, { c with categorize_enabled :=
          clar_category_enable c.categorize_enabled category })
    else if sw = 'l' then parse_list_arg img c
    else clar_usage c argv0

/-- The loop of `clar_parse_args` over `argv[i]`, `1 ≤ i < argc`. -/
def parse_loop (img : Image) (argv0 : CStr) (c : Clar) : List CharPtr → Flow × Clar
  | [] => (Flow.ret, c)
  | arg :: rest =>
    match parse_arg img c argv0 arg with
    | (Flow.ret, c) => parse_loop img argv0 c rest
    | r => r

/-- The function `clar_parse_args`; `argv` holds the `argc` arguments. -/
def clar_parse_args (img : Image) (c : Clar) : List CharPtr → Flow × Clar
  | [] => (Flow.ret, c)
  | argv0 :: rest => parse_loop img argv0.str c rest

/-- The function `clar_print_shutdown`. -/
def clar_print_shutdown (c : Clar) (test_count suite_count error_count : Int) : Clar :=
  clar_report_errors
    { c with output := c.output ++ [Event.print_shutdown test_count suite_count error_count] }

/-- The loop of `clar_test` that runs every suite. -/
def run_all (img : Image) (c : Clar) : List clar_suite → Flow × Clar
  | [] => (Flow.ret, c)
  | suite :: rest =>
    match clar_run_suite img c suite with
    | (Flow.ret, c) => run_all img c rest
    | r => r

/-- The function `clar_test`; `sandbox` is the value returned by
`clar_sandbox()`.  When it returns, its return value is the field
`total_errors` of the state. -/
def clar_test (img : Image) (sandbox : Int) (c : Clar) (argv : List CharPtr) : Flow × Clar :=
  let c := { c with output := c.output ++
    [Event.print_init img._clar_callback_count img._clar_suite_count []] }
  if sandbox < 0 then
    (Flow.exit (-1), clar_print_onabort c "Failed to sandbox the test runner.\n".toList)
  else
    let r := if argv.length > 1 then clar_parse_args img c argv else (Flow.ret, c)
    match r with
    | (Flow.ret, c) =>
      let r := if c.active_suite = none then run_all img c img._clar_suites else (Flow.ret, c)
      match r with
      | (Flow.ret, c) =>
        let c := clar_print_shutdown c c.test_count img._clar_suite_count c.total_errors
        (Flow.ret, { c with output := c.output ++ [Event.unsandbox] })
      | r => r
    | r => r

/-- The function `main`: the value returned by `clar_test` is the exit status
of the process. -/
def main (img : Image) (sandbox : Int) (c : Clar) (argv : List CharPtr) : Flow × Clar :=
  match clar_test img sandbox c argv with
  | (Flow.ret, c) => (Flow.exit c.total_errors, c)
  | r => r

/-! ## Vocabulary of the statements -/

/-- What a failing assertion hands to the ledger: file, line, message and
description. -/
structure Failure where
  file : CStr
  line : Int
  error_msg : CStr
  description : Option CStr
deriving DecidableEq, Repr

/-- The failure a call raises, if it is an assertion that fails. -/
def Call.failure : Call → Option Failure
  | Call.clar__assert condition file line error_msg description _ =>
    if condition = 0 then some ⟨file, line, error_msg, description⟩ else none
  | Call.clar__assert_equal_s s1 s2 file line err _ =>
    if match_s s1 s2 then none else some ⟨file, line, err, some (snprint_eq_s 4096 s1 s2)⟩
  | Call.clar__assert_equal_i i1 i2 file line err _ =>
    if i1 = i2 then none else some ⟨file, line, err, some (snprint_eq_i 128 i1 i2)⟩
  | Call.cl_set_cleanup _ _ => none

/-- The argument `should_abort` of a call (0 for `cl_set_cleanup`). -/
def Call.should_abort : Call → Int
  | Call.clar__assert _ _ _ _ _ should_abort => should_abort
  | Call.clar__assert_equal_s _ _ _ _ _ should_abort => should_abort
  | Call.clar__assert_equal_i _ _ _ _ _ should_abort => should_abort
  | Call.cl_set_cleanup _ _ => 0

/-- The error record of a failure raised while the state is `c`. -/
def Failure.record (c : Clar) (f : Failure) : clar_error :=
  { test := c.active_test, test_number := c.test_count, suite := c.active_suite,
    file := f.file, line_number := f.line, error_msg := f.error_msg,
    description := f.description }

/-- The failures raised by a sequence of calls, in the order of the calls. -/
def failures (calls : List Call) : List Failure := calls.filterMap Call.failure

/-- The local cleanup and payload registered after a sequence of calls: those
of the last `cl_set_cleanup`, or the ones registered before. -/
def registered (reg : Option Nat × Option Nat) : List Call → Option Nat × Option Nat
  | [] => reg
  | Call.cl_set_cleanup cleanup payload :: rest => registered (cleanup, payload) rest
  | _ :: rest => registered reg rest

/-- The calls made by the function behind an optional pointer. -/
def calls_of (img : Image) (ptr : Option Nat) (arg : Option Nat) : List Call :=
  match ptr with
  | some f => img.code f arg
  | none => []

/-- The calls made by the setup and the body of a test. -/
def region_calls (img : Image) (test initialise : clar_func) : List Call :=
  calls_of img initialise.ptr none ++ calls_of img test.ptr none

/-- The local cleanup in force when the body of a test has returned. -/
def cleanup_in_force (img : Image) (c : Clar) (test initialise : clar_func) :
    Option Nat × Option Nat :=
  registered (c.local_cleanup, c.local_cleanup_payload) (region_calls img test initialise)

/-- The calls made during one test when every call returns: those of the
setup, the body, the local cleanup in force and the teardown. -/
def test_calls (img : Image) (c : Clar) (test initialise cleanup : clar_func) : List Call :=
  region_calls img test initialise ++
    calls_of img (cleanup_in_force img c test initialise).1
      (cleanup_in_force img c test initialise).2 ++
    calls_of img cleanup.ptr none

/-- The callbacks called during one test when every call returns, as events. -/
def test_invocations (img : Image) (c : Clar) (test initialise cleanup : clar_func) :
    List Event :=
  (initialise.ptr.map Event.call_initialise).toList ++
    (test.ptr.map Event.call_test).toList ++
    ((cleanup_in_force img c test initialise).1.map
      (fun f => Event.call_local_cleanup f (cleanup_in_force img c test initialise).2)).toList ++
    (cleanup.ptr.map Event.call_cleanup).toList

/-- The event is a call of `clar_print_ontest`. -/
def Event.is_ontest : Event → Bool
  | Event.print_ontest _ _ _ => true
  | _ => false

/-- The event is a call of the suite teardown (`cleanup->ptr`). -/
def Event.is_cleanup : Event → Bool
  | Event.call_cleanup _ => true
  | _ => false

/-- The effect on the state of one call that returns. -/
def step (c : Clar) (k : Call) : Clar :=
  match k with
  | Call.cl_set_cleanup cleanup payload => cl_set_cleanup c cleanup payload
  | k =>
    match k.failure with
    | some f => { c with errors := c.errors ++ [f.record c],
                         suite_errors := c.suite_errors + 1,
                         total_errors := c.total_errors + 1 }
    | none => c

/-- The state `d` is reached from the state `c` by the returning calls `calls`
and the events `evs`: what such a passage changes and what it keeps
(`trampoline_enabled` is left open). -/
structure Reach (c d : Clar) (calls : List Call) (evs : List Event) : Prop where
  active_test : d.active_test = c.active_test
  active_suite : d.active_suite = c.active_suite
  test_count : d.test_count = c.test_count
  report_errors_only : d.report_errors_only = c.report_errors_only
  exit_on_error : d.exit_on_error = c.exit_on_error
  categorize_enabled : d.categorize_enabled = c.categorize_enabled
  output : d.output = c.output ++ evs
  errors : d.errors = c.errors ++ (failures calls).map (Failure.record c)
  suite_errors : d.suite_errors = c.suite_errors + (failures calls).length
  total_errors : d.total_errors = c.total_errors + (failures calls).length
  cleanup : (d.local_cleanup, d.local_cleanup_payload) =
    registered (c.local_cleanup, c.local_cleanup_payload) calls

/-! ## Example programs -/

/-- An assertion that fails: `clar__assert(0, "t.c", line, "failed", NULL,
should_abort)`. -/
def failing (line : Int) (should_abort : Int) : Call :=
  Call.clar__assert 0 "t.c".toList line "failed".toList none should_abort

/-- An assertion that passes: `clar__assert(1, "t.c", line, "ok", NULL,
should_abort)`. -/
def passing (line : Int) (should_abort : Int) : Call :=
  Call.clar__assert 1 "t.c".toList line "ok".toList none should_abort

/-- The code of an example program.  Function 1 fails twice without aborting,
function 2 fails with abort and would then fail again, function 3 registers
function 4 as local cleanup and then fails with abort, function 4 fails with
abort, function 5 makes no call, function 6 fails once without aborting,
function 7 registers function 5 as local cleanup and fails with abort,
function 8 registers function 6 and then function 5 as local cleanup,
function 9 makes a passing assertion with abort and then fails without
aborting, and function 10 makes a passing assertion with abort, registers
function 9 as local cleanup, fails with abort and would then fail again. -/
def example_code : Code := fun f _ =>
  match f with
  | 1 => [failing 10 0, failing 11 0]
  | 2 => [failing 20 1, failing 21 0]
  | 3 => [Call.cl_set_cleanup (some 4) (some 99), failing 30 1]
  | 4 => [failing 40 1]
  | 6 => [failing 60 0]
  | 7 => [Call.cl_set_cleanup (some 5) (some 99), failing 70 1, failing 71 0]
  | 8 => [Call.cl_set_cleanup (some 6) (some 1), Call.cl_set_cleanup (some 5) (some 99)]
  | 9 => [passing 90 1, failing 91 0]
  | 10 => [passing 100 1, Call.cl_set_cleanup (some 9) (some 99), failing 101 1,
      failing 102 0]
  | _ => []

/-- An example image: the code above and one suite, `encode`, without
categories, setup or teardown, whose only test is function 1. -/
def example_image : Image :=
  { code := example_code
    _clar_suites :=
      [{ index := 0, name := "encode".toList, initialise := ⟨[], none⟩, cleanup := ⟨[], none⟩,
         categories := none, tests := [⟨"all_code128a_points".toList, some 1⟩] }]
    _clar_callback_count := 1
    default_lit := 4096 }

/-- The `clar_func` of an example function. -/
def example_func (f : Nat) : clar_func := { name := "f".toList, ptr := some f }

/-- The `clar_func` with a null pointer, `{NULL, NULL}`. -/
def no_func : clar_func := { name := [], ptr := none }

/-- The names of the enabled set once the lazy default of
`clar_category_is_suite_enabled` has been applied: `"default"` alone when the
set was empty, the set itself otherwise. -/
def names_after_default (lit : Nat) (enabled : clar_category_list) : List CharPtr :=
  if enabled.names = [] then [CLAR_CATEGORY_DEFAULT lit] else enabled.names

/-- An example suite with the given categories. -/
def example_suite (categories : Option (List CharPtr)) : clar_suite :=
  { index := 0, name := "encode".toList, initialise := no_func, cleanup := no_func,
    categories := categories, tests := [example_func 1] }

/-- An example enabled set: the one category `net`. -/
def example_enabled : clar_category_list :=
  { names := [{ addr := 8192, str := "net".toList }], alloc := 10 }

/-- The list is the contents of a C string: it holds no NUL byte. -/
def is_c_string (s : CStr) : Prop := ∀ ch ∈ s, ch.toNat ≠ 0

/-- The pointer is null or points to a C string. -/
def is_c_string_or_null (s : Option CStr) : Prop := ∀ a, s = some a → is_c_string a

/-- The text `'s1' != 's2'` in full. -/
def not_equal_text (s1 s2 : CStr) : CStr :=
  (quote :: s1) ++ "' != '".toList ++ s2 ++ [quote]

/-- An example image like the repository's: one suite, `encode`, without
categories, setup or teardown, whose only test (function 5) passes; the
literal `"default"` is stored at address `0x402010`. -/
def passing_image : Image :=
  { code := example_code
    _clar_suites :=
      [{ index := 0, name := "encode".toList, initialise := no_func, cleanup := no_func,
         categories := none, tests := [⟨"all_code128a_points".toList, some 5⟩] }]
    _clar_callback_count := 1
    default_lit := 0x402010 }

/-- The command line `clar -s4294967296`. -/
def argv_wrap : List CharPtr :=
  [⟨0x7ffd1000, "clar".toList⟩, ⟨0x7ffd1005, "-s4294967296".toList⟩]

/-- The command line `clar -ib -ia -l`, its strings one after the other in
memory. -/
def argv_list : List CharPtr :=
  [⟨0x7ffd1000, "clar".toList⟩, ⟨0x7ffd1005, "-ib".toList⟩, ⟨0x7ffd1009, "-ia".toList⟩,
   ⟨0x7ffd100d, "-l".toList⟩]

/-- Two strings are equal case-insensitively: they differ at most in the case
of letters. -/
def same_up_to_case (a b : CStr) : Prop := a.map Char.toLower = b.map Char.toLower

/-- No two entries of the list are equal case-insensitively. -/
def no_case_duplicates (names : List CharPtr) : Prop :=
  names.Pairwise (fun p q => ¬ same_up_to_case p.str q.str)

/-- The category tags declared by the suites, in the order of the suites; a
suite whose `categories` pointer is null declares none. -/
def declared_categories : List clar_suite → List CharPtr
  | [] => []
  | suite :: rest =>
    (match suite.categories with
     | none => []
     | some categories => categories) ++ declared_categories rest

/-- Example suites: one of the categories `net` and `Slow`, one with a null
`categories` pointer. -/
def example_suites : List clar_suite :=
  [example_suite (some [⟨1, "net".toList⟩, ⟨2, "Slow".toList⟩]), example_suite none]

/-- The decimal value of a string of digits. -/
def decimal_value (digits : CStr) : Nat :=
  digits.foldl (fun v ch => 10 * v + (ch.toNat - 48)) 0

/-- The call is an assertion that fails with `should_abort` set. -/
def Call.aborts (k : Call) : Bool := k.failure.isSome && decide (k.should_abort ≠ 0)

/-- The calls of a sequence that are made while the abort region is armed:
those up to and including the first one that aborts. -/
def executed : List Call → List Call
  | [] => []
  | k :: rest => if k.aborts then [k] else k :: executed rest

/-- The callbacks called in the guarded block of a test, as events: the
setup when there is one, and the body unless the setup aborts. -/
def region_invocations (img : Image) (test initialise : clar_func) : List Event :=
  (initialise.ptr.map Event.call_initialise).toList ++
    if (calls_of img initialise.ptr none).any Call.aborts then []
    else (test.ptr.map Event.call_test).toList

/-- The local cleanup and payload in force when the guarded block of a test
is left, by return or by `longjmp`. -/
def cleanup_at_exit (img : Image) (c : Clar) (test initialise : clar_func) :
    Option Nat × Option Nat :=
  registered (c.local_cleanup, c.local_cleanup_payload)
    (executed (region_calls img test initialise))

/-- The call of the local cleanup in `clar_run_test`, from the state in which
the guarded block was left: the first step of `after_region`. -/
def local_cleanup_phase (img : Image) (d : Clar) : Flow × Clar :=
  match d.local_cleanup with
  | some f => call_ptr img { d with trampoline_enabled := 0 }
      (Event.call_local_cleanup f d.local_cleanup_payload) f d.local_cleanup_payload
  | none => (Flow.ret, { d with trampoline_enabled := 0 })

/-- The call of the teardown in `clar_run_test`, from the state in which the
local cleanup has returned: the second step of `after_region`. -/
def teardown_phase (img : Image) (d : Clar) (cleanup : clar_func) : Flow × Clar :=
  match cleanup.ptr with
  | some f => call_ptr img d (Event.call_cleanup f) f none
  | none => (Flow.ret, d)

/-- One turn of the loop of `clar_run_suite`: the test `test` run from the
state `d`. -/
def run_one (img : Image) (suite : clar_suite) (d : Clar) (test : clar_func) : Flow × Clar :=
  clar_run_test img { d with active_test := some test.name } test suite.initialise
    suite.cleanup

/-- The stop-on-first-error condition `_clar.exit_on_error && _clar.total_errors`
in the state `d`. -/
def stops (d : Clar) : Bool := decide (d.exit_on_error ≠ 0 ∧ d.total_errors ≠ 0)

/-- The state after the tests of a list have been run one after the other. -/
def state_after (img : Image) (suite : clar_suite) (c : Clar) : List clar_func → Clar
  | [] => c
  | test :: rest => state_after img suite (run_one img suite c test).2 rest

/-- Every test of the list, run after the ones before it, returns and leaves
the stop-on-first-error condition false. -/
def passes (img : Image) (suite : clar_suite) (c : Clar) : List clar_func → Bool
  | [] => true
  | test :: rest =>
    decide ((run_one img suite c test).1 = Flow.ret) && !stops (run_one img suite c test).2 &&
      passes img suite (run_one img suite c test).2 rest

/-- Every test of the list, run after the ones before it, returns. -/
def all_return (img : Image) (suite : clar_suite) (c : Clar) : List clar_func → Bool
  | [] => true
  | test :: rest =>
    decide ((run_one img suite c test).1 = Flow.ret) &&
      all_return img suite (run_one img suite c test).2 rest

/-- The state in which `clar_run_suite` enters its loop: the category filter
has been asked, the suite start has been printed unless `report_errors_only`
is set, the suite is the active one and its error counter is zero. -/
def suite_start (img : Image) (c : Clar) (suite : clar_suite) : Clar :=
  { c with
    categorize_enabled :=
      (clar_category_is_suite_enabled img.default_lit c.categorize_enabled suite).2
    output :=
      if c.report_errors_only = 0 then
        c.output ++ [Event.print_onsuite suite.name suite.index]
      else c.output
    active_suite := some suite.name
    suite_errors := 0 }

/-- An example suite of two tests, function 3 and function 1, without
categories, setup or teardown. -/
def example_suite_two : clar_suite :=
  { index := 0, name := "two".toList, initialise := no_func, cleanup := no_func,
    categories := none, tests := [example_func 3, example_func 1] }

/-! ## Theorems -/

theorem run_call_nonfatal (c : Clar) (k : Call) (h : k.should_abort = 0) :
    run_call c k = (Flow.ret, step c k) := by
  cases k with
  | clar__assert condition file line error_msg description should_abort =>
    simp only [Call.should_abort] at h
    subst h
    by_cases hc : condition = 0
    · simp [run_call, clar__assert, step, Call.failure, hc, Failure.record]
    · simp [run_call, clar__assert, step, Call.failure, hc]
  | clar__assert_equal_s s1 s2 file line err should_abort =>
    simp only [Call.should_abort] at h
    subst h
    by_cases hc : match_s s1 s2 = true
    · simp [run_call, clar__assert_equal_s, step, Call.failure, hc]
    · simp [run_call, clar__assert_equal_s, clar__assert, step, Call.failure, hc, Failure.record]
  | clar__assert_equal_i i1 i2 file line err should_abort =>
    simp only [Call.should_abort] at h
    subst h
    by_cases hc : i1 = i2
    · simp [run_call, clar__assert_equal_i, step, Call.failure, hc]
    · simp [run_call, clar__assert_equal_i, clar__assert, step, Call.failure, hc, Failure.record]
  | cl_set_cleanup cleanup payload => simp [run_call, step]

/-- The fields a returning call can change, and how. -/
theorem step_fields (c : Clar) (k : Call) :
    (step c k).active_test = c.active_test ∧ (step c k).active_suite = c.active_suite ∧
    (step c k).test_count = c.test_count ∧
    (step c k).report_errors_only = c.report_errors_only ∧
    (step c k).exit_on_error = c.exit_on_error ∧
    (step c k).trampoline_enabled = c.trampoline_enabled ∧
    (step c k).categorize_enabled = c.categorize_enabled ∧
    (step c k).output = c.output ∧
    (step c k).errors = c.errors ++ (failures [k]).map (Failure.record c) ∧
    (step c k).suite_errors = c.suite_errors + (failures [k]).length ∧
    (step c k).total_errors = c.total_errors + (failures [k]).length ∧
    ((step c k).local_cleanup, (step c k).local_cleanup_payload) =
      registered (c.local_cleanup, c.local_cleanup_payload) [k] := by
  cases k <;> simp only [step, failures, List.filterMap_cons, List.filterMap_nil, registered]
    <;> (try split) <;> simp_all [cl_set_cleanup, Call.failure]

theorem record_congr (c d : Clar) (h1 : d.active_test = c.active_test)
    (h2 : d.active_suite = c.active_suite) (h3 : d.test_count = c.test_count) :
    Failure.record d = Failure.record c := by
  funext f
  simp [Failure.record, h1, h2, h3]

theorem failures_append (a b : List Call) : failures (a ++ b) = failures a ++ failures b := by
  simp [failures]

theorem registered_append (reg : Option Nat × Option Nat) (a b : List Call) :
    registered reg (a ++ b) = registered (registered reg a) b := by
  induction a generalizing reg with
  | nil => rfl
  | cons k rest ih => cases k <;> simp [registered, ih]

theorem Reach.refl (c : Clar) : Reach c c [] [] := by
  constructor <;> simp [failures, registered]

theorem Reach.events (c : Clar) (evs : List Event) :
    Reach c { c with output := c.output ++ evs } [] evs := by
  constructor <;> simp [failures, registered]

theorem Reach.trampoline (c : Clar) (x : Int) :
    Reach c { c with trampoline_enabled := x } [] [] := by
  constructor <;> simp [failures, registered]

theorem Reach.step (c : Clar) (k : Call) : Reach c (step c k) [k] [] := by
  obtain ⟨h1, h2, h3, h4, h5, _, h7, h8, h9, h10, h11, h12⟩ := step_fields c k
  constructor <;> simp [*]

theorem Reach.trans {a b c : Clar} {k1 k2 : List Call} {e1 e2 : List Event}
    (h : Reach a b k1 e1) (g : Reach b c k2 e2) : Reach a c (k1 ++ k2) (e1 ++ e2) := by
  have hr := record_congr a b h.active_test h.active_suite h.test_count
  constructor
  · rw [g.active_test, h.active_test]
  · rw [g.active_suite, h.active_suite]
  · rw [g.test_count, h.test_count]
  · rw [g.report_errors_only, h.report_errors_only]
  · rw [g.exit_on_error, h.exit_on_error]
  · rw [g.categorize_enabled, h.categorize_enabled]
  · rw [g.output, h.output, List.append_assoc]
  · rw [g.errors, h.errors, hr, failures_append, List.map_append, List.append_assoc]
  · rw [g.suite_errors, h.suite_errors, failures_append, List.length_append]
    push_cast; ring
  · rw [g.total_errors, h.total_errors, failures_append, List.length_append]
    push_cast; ring
  · rw [g.cleanup, h.cleanup, registered_append]

theorem Reach.foldl (c : Clar) (calls : List Call) :
    Reach c (calls.foldl ClarMain.step c) calls [] := by
  induction calls generalizing c with
  | nil => exact Reach.refl c
  | cons k rest ih =>
    have h := (Reach.step c k).trans (ih (ClarMain.step c k))
    simpa using h

theorem foldl_step_trampoline (c : Clar) (calls : List Call) :
    (calls.foldl step c).trampoline_enabled = c.trampoline_enabled := by
  induction calls generalizing c with
  | nil => rfl
  | cons k rest ih => rw [List.foldl_cons, ih, (step_fields c k).2.2.2.2.2.1]

theorem report_loop_no_ontest (i : Int) (errors : List clar_error) :
    (report_loop i errors).countP Event.is_ontest = 0 := by
  induction errors generalizing i with
  | nil => rfl
  | cons e rest ih => simp [report_loop, Event.is_ontest, ih]

theorem test_invocations_no_ontest (img : Image) (c : Clar)
    (test initialise cleanup : clar_func) :
    (test_invocations img c test initialise cleanup).countP Event.is_ontest = 0 := by
  simp only [test_invocations, List.countP_append]
  cases initialise.ptr <;> cases test.ptr <;> cases cleanup.ptr <;>
    cases (cleanup_in_force img c test initialise).1 <;> simp [Event.is_ontest]

/-- C1, counterexample to the claim as stated: with `report_errors_only` set, a test with
one failing non-fatal assertion returns without any call of `clar_print_ontest`, and
the record of the failure is no longer in the ledger. -/
theorem clar_run_test_report_only_no_ontest :
    (test_calls example_image { Clar.init with report_errors_only := 1 } (example_func 6)
        no_func no_func = [failing 60 0]) ∧
    (clar_run_test example_image { Clar.init with report_errors_only := 1 } (example_func 6)
        no_func no_func).1 = Flow.ret ∧
    (clar_run_test example_image { Clar.init with report_errors_only := 1 } (example_func 6)
        no_func no_func).2.output.countP Event.is_ontest = 0 ∧
    (clar_run_test example_image { Clar.init with report_errors_only := 1 } (example_func 6)
        no_func no_func).2.errors = [] := by
  decide

theorem run_call_fatal (c : Clar) (k : Call) (f : Failure) (ht : c.trampoline_enabled ≠ 0)
    (hf : k.failure = some f) (ha : k.should_abort ≠ 0) :
    run_call c k = (Flow.longjmp, step c k) := by
  cases k with
  | clar__assert condition file line error_msg description should_abort =>
    simp only [Call.should_abort] at ha
    by_cases hc : condition = 0
    · simp [run_call, clar__assert, step, Call.failure, hc, Failure.record, ha, ht]
    · simp [Call.failure, hc] at hf
  | clar__assert_equal_s s1 s2 file line err should_abort =>
    simp only [Call.should_abort] at ha
    by_cases hc : match_s s1 s2 = true
    · simp [Call.failure, hc] at hf
    · simp [run_call, clar__assert_equal_s, clar__assert, step, Call.failure, hc,
        Failure.record, ha, ht]
  | clar__assert_equal_i i1 i2 file line err should_abort =>
    simp only [Call.should_abort] at ha
    by_cases hc : i1 = i2
    · simp [Call.failure, hc] at hf
    · simp [run_call, clar__assert_equal_i, clar__assert, step, Call.failure, hc,
        Failure.record, ha, ht]
  | cl_set_cleanup cleanup payload => simp [Call.failure] at hf

theorem run_calls_append_ret (c d : Clar) (pre rest : List Call)
    (h : run_calls c pre = (Flow.ret, d)) :
    run_calls c (pre ++ rest) = run_calls d rest := by
  induction pre generalizing c with
  | nil =>
    simp only [run_calls, Prod.mk.injEq, true_and] at h
    subst h; rfl
  | cons k pre ih =>
    simp only [List.cons_append, run_calls] at h ⊢
    rcases hk : run_call c k with ⟨fl, c1⟩
    rw [hk] at h
    cases fl with
    | ret => exact ih c1 h
    | longjmp => simp at h
    | exit s => simp at h
    | fault => simp at h

theorem run_call_output (c : Clar) (k : Call) :
    ∃ extra, (run_call c k).2.output = c.output ++ extra ∧
      extra.countP Event.is_cleanup = 0 ∧ extra.countP Event.is_ontest = 0 := by
  have hrep : ∀ (i : Int) (es : List clar_error),
      (report_loop i es).countP Event.is_cleanup = 0 := by
    intro i es
    induction es generalizing i with
    | nil => rfl
    | cons e rest ih => simp [report_loop, Event.is_cleanup, ih]
  have key : ∀ (condition : Int) (file : CStr) (line : Int) (msg : CStr)
      (description : Option CStr) (should_abort : Int),
      ∃ extra, (clar__assert c condition file line msg description should_abort).2.output =
        c.output ++ extra ∧
        extra.countP Event.is_cleanup = 0 ∧ extra.countP Event.is_ontest = 0 := by
    intro condition file line msg description should_abort
    by_cases hc : condition = 0
    · by_cases ha : should_abort = 0
      · exact ⟨[], by simp [clar__assert, hc, ha], rfl, rfl⟩
      · by_cases ht : c.trampoline_enabled = 0
        · refine ⟨Event.print_onabort
            "Fatal error: a cleanup method raised an exception.".toList ::
              report_loop 1 (c.errors ++ [Failure.record c ⟨file, line, msg, description⟩]),
            ?_, ?_, ?_⟩
          · simp [clar__assert, hc, ha, ht, clar_report_errors, Failure.record]
          · simp [Event.is_cleanup, hrep]
          · simp [Event.is_ontest, report_loop_no_ontest]
        · exact ⟨[], by simp [clar__assert, hc, ha, ht], rfl, rfl⟩
    · exact ⟨[], by simp [clar__assert, hc], rfl, rfl⟩
  cases k with
  | clar__assert condition file line error_msg description should_abort =>
    exact key _ _ _ _ _ _
  | clar__assert_equal_s s1 s2 file line err should_abort =>
    by_cases hc : match_s s1 s2 = true
    · exact ⟨[], by simp [run_call, clar__assert_equal_s, hc], rfl, rfl⟩
    · obtain ⟨extra, h1, h2⟩ := key 0 file line err (some (snprint_eq_s 4096 s1 s2)) should_abort
      exact ⟨extra, by simpa [run_call, clar__assert_equal_s, hc] using h1, h2⟩
  | clar__assert_equal_i i1 i2 file line err should_abort =>
    by_cases hc : i1 = i2
    · exact ⟨[], by simp [run_call, clar__assert_equal_i, hc], rfl, rfl⟩
    · obtain ⟨extra, h1, h2⟩ := key 0 file line err (some (snprint_eq_i 128 i1 i2)) should_abort
      exact ⟨extra, by simpa [run_call, clar__assert_equal_i, hc] using h1, h2⟩
  | cl_set_cleanup cleanup payload => exact ⟨[], by simp [run_call, cl_set_cleanup], rfl, rfl⟩

/-- Whatever calls a callback makes, they only add to the output, and what
they add is neither a call of the teardown nor of `clar_print_ontest`. -/
theorem run_calls_output (c : Clar) (calls : List Call) :
    ∃ extra, (run_calls c calls).2.output = c.output ++ extra ∧
      extra.countP Event.is_cleanup = 0 ∧ extra.countP Event.is_ontest = 0 := by
  induction calls generalizing c with
  | nil => exact ⟨[], by simp [run_calls], rfl, rfl⟩
  | cons k rest ih =>
    obtain ⟨e1, h1, h2, h3⟩ := run_call_output c k
    simp only [run_calls]
    rcases hk : run_call c k with ⟨fl, c1⟩
    rw [hk] at h1
    cases fl with
    | ret =>
      obtain ⟨e2, g1, g2, g3⟩ := ih c1
      refine ⟨e1 ++ e2, ?_, ?_, ?_⟩
      · simp only [g1]
        rw [h1, List.append_assoc]
      · rw [List.countP_append, h2, g2]
      · rw [List.countP_append, h3, g3]
    | longjmp => exact ⟨e1, h1, h2, h3⟩
    | exit s => exact ⟨e1, h1, h2, h3⟩
    | fault => exact ⟨e1, h1, h2, h3⟩

theorem report_loop_no_cleanup (i : Int) (errors : List clar_error) :
    (report_loop i errors).countP Event.is_cleanup = 0 := by
  induction errors generalizing i with
  | nil => rfl
  | cons e rest ih => simp [report_loop, Event.is_cleanup, ih]

theorem finish_test_output (d : Clar) (test : clar_func) (e : Int) :
    ∃ fin, (finish_test d test e).output = d.output ++ fin ∧
      fin.countP Event.is_cleanup = 0 := by
  by_cases hm : d.report_errors_only = 0
  · exact ⟨[Event.print_ontest test.name (d.test_count + 1) (decide (d.suite_errors > e))],
      by simp [finish_test, hm], by simp [Event.is_cleanup]⟩
  · exact ⟨report_loop 1 d.errors, by simp [finish_test, hm, clar_report_errors],
      report_loop_no_cleanup _ _⟩

/-- C2, counterexample to the claim as stated: the body registers function 4 as local
cleanup and raises a fatal failure while the abort region is armed; the local cleanup
raises a fatal failure in its turn, the process exits with status -1, and the teardown
of the suite (function 5) has not been called. -/
theorem clar_run_test_fatal_cleanup_skips_teardown :
    (run_region example_image { Clar.init with trampoline_enabled := 1 } (example_func 3)
      no_func).1 = Flow.longjmp ∧
    (clar_run_test example_image Clar.init (example_func 3) no_func (example_func 5)).1 =
      Flow.exit (-1) ∧
    (clar_run_test example_image Clar.init (example_func 3) no_func
      (example_func 5)).2.output.countP Event.is_cleanup = 0 := by
  decide

theorem in_list_loop_zero_or_one (cat : CharPtr) (names : List CharPtr) :
    in_list_loop cat names = 0 ∨ in_list_loop cat names = 1 := by
  induction names with
  | nil => exact Or.inl rfl
  | cons n rest ih =>
    simp only [in_list_loop]
    split
    · exact Or.inr rfl
    · exact ih

/-- The function `clar_category_in_list` returns 1 exactly when some entry of the list
equals the category up to case, and 0 otherwise. -/
theorem in_list_loop_eq_one_iff (cat : CharPtr) (names : List CharPtr) :
    in_list_loop cat names = 1 ↔ ∃ n ∈ names, strcasecmp cat.str n.str = 0 := by
  induction names with
  | nil => simp [in_list_loop]
  | cons n rest ih =>
    simp only [in_list_loop, List.mem_cons, exists_eq_or_imp]
    by_cases h : strcasecmp cat.str n.str = 0
    · simp [h]
    · simp [h, ih]

theorem in_list_loop_ne_zero_iff (cat : CharPtr) (names : List CharPtr) :
    in_list_loop cat names ≠ 0 ↔ ∃ n ∈ names, strcasecmp cat.str n.str = 0 := by
  rw [← in_list_loop_eq_one_iff]
  rcases in_list_loop_zero_or_one cat names with h | h <;> simp [h]

theorem count_eq_zero_iff (list : clar_category_list) : list.count = 0 ↔ list.names = [] := by
  simp [clar_category_list.count]

/-- The enabled set that `clar_category_is_suite_enabled` leaves behind. -/
theorem is_suite_enabled_names (lit : Nat) (enabled : clar_category_list) (suite : clar_suite) :
    (clar_category_is_suite_enabled lit enabled suite).2.names =
      names_after_default lit enabled := by
  by_cases h : enabled.names = []
  · have hc : enabled.count = 0 := (count_eq_zero_iff enabled).2 h
    cases hs : suite.categories <;>
      simp [clar_category_is_suite_enabled, hs, hc, h, names_after_default,
        clar_category_enable, clar_category_add_to_list, clar_category_in_list, in_list_loop] <;>
      split <;> simp [h]
  · have hc : ¬ enabled.count = 0 := fun hc => h ((count_eq_zero_iff enabled).1 hc)
    cases hs : suite.categories <;>
      simp [clar_category_is_suite_enabled, hs, hc, h, names_after_default]

/-- C3 (as amended).  For a suite whose `categories` pointer is null,
`clar_category_is_suite_enabled` returns 1 if `"default"` equals, up to case, an entry
of the enabled set taken after the lazy default (the entry `"default"` alone when the
set was empty: the result is then 1), and 0 if not.  For a suite whose category array is
not null but empty it returns 0, whatever the enabled set. -/
theorem is_suite_enabled_no_categories (lit : Nat) (enabled : clar_category_list)
    (suite : clar_suite) :
    (clar_category_is_suite_enabled lit enabled suite).2.names =
      names_after_default lit enabled ∧
    (suite.categories = none →
      ((clar_category_is_suite_enabled lit enabled suite).1 = 1 ↔
        ∃ n ∈ names_after_default lit enabled, strcasecmp "default".toList n.str = 0) ∧
      ((clar_category_is_suite_enabled lit enabled suite).1 = 0 ∨
        (clar_category_is_suite_enabled lit enabled suite).1 = 1) ∧
      (enabled.names = [] → (clar_category_is_suite_enabled lit enabled suite).1 = 1)) ∧
    (suite.categories = some [] → (clar_category_is_suite_enabled lit enabled suite).1 = 0) := by
  refine ⟨is_suite_enabled_names lit enabled suite, ?_, ?_⟩
  · intro hs
    have hn := is_suite_enabled_names lit enabled suite
    have h1 : (clar_category_is_suite_enabled lit enabled suite).1 =
        in_list_loop (CLAR_CATEGORY_DEFAULT lit) (names_after_default lit enabled) := by
      rw [← hn]
      simp [clar_category_is_suite_enabled, hs, clar_category_in_list]
    rw [h1]
    refine ⟨in_list_loop_eq_one_iff _ _, in_list_loop_zero_or_one _ _, ?_⟩
    intro he
    rw [in_list_loop_eq_one_iff]
    exact ⟨CLAR_CATEGORY_DEFAULT lit, by simp [names_after_default, he],
      show strcasecmp "default".toList "default".toList = 0 by decide⟩
  · intro hs
    simp [clar_category_is_suite_enabled, hs, scan_loop]

/-- C3, witness: a suite with a null `categories` pointer and the empty enabled set, and a
suite with an empty category array. -/
theorem is_suite_enabled_no_categories_witness :
    ((example_suite none).categories = none ∧ Clar.init.categorize_enabled.names = [] ∧
      (clar_category_is_suite_enabled 4096 Clar.init.categorize_enabled
        (example_suite none)).1 = 1) ∧
    ((example_suite (some [])).categories = some [] ∧
      (clar_category_is_suite_enabled 4096 example_enabled (example_suite (some []))).1 = 0) :=
  ⟨⟨rfl, rfl, ((is_suite_enabled_no_categories 4096 Clar.init.categorize_enabled
      (example_suite none)).2.1 rfl).2.2 rfl⟩,
   ⟨rfl, (is_suite_enabled_no_categories 4096 example_enabled
      (example_suite (some []))).2.2 rfl⟩⟩

/-- C3, counterexample to the claim as stated: a suite that declares no category through
a non-null, empty category array is rejected although `"default"` is in the enabled set
once the lazy default has been applied. -/
theorem is_suite_enabled_empty_array_rejected :
    (clar_category_is_suite_enabled 4096 Clar.init.categorize_enabled
      (example_suite (some []))).1 = 0 ∧
    clar_category_in_list
      (clar_category_is_suite_enabled 4096 Clar.init.categorize_enabled
        (example_suite (some []))).2 (CLAR_CATEGORY_DEFAULT 4096) = 1 := by
  decide

theorem scan_loop_eq_one_iff (enabled : clar_category_list) (cats : List CharPtr) :
    scan_loop enabled cats = 1 ↔
      ∃ cat ∈ cats, ∃ n ∈ enabled.names, strcasecmp cat.str n.str = 0 := by
  induction cats with
  | nil => simp [scan_loop]
  | cons cat rest ih =>
    simp only [scan_loop, clar_category_in_list, List.mem_cons, exists_eq_or_imp]
    by_cases h : in_list_loop cat enabled.names ≠ 0
    · rw [if_pos h]
      exact ⟨fun _ => Or.inl ((in_list_loop_ne_zero_iff _ _).1 h), fun _ => rfl⟩
    · rw [if_neg h, ih]
      rw [in_list_loop_ne_zero_iff] at h
      exact ⟨fun g => Or.inr g, fun g => g.resolve_left h⟩

theorem scan_loop_zero_or_one (enabled : clar_category_list) (cats : List CharPtr) :
    scan_loop enabled cats = 0 ∨ scan_loop enabled cats = 1 := by
  induction cats with
  | nil => exact Or.inl rfl
  | cons n rest ih =>
    simp only [scan_loop]
    split
    · exact Or.inr rfl
    · exact ih

/-- C4.  For a suite that declares the categories `cats`, `clar_category_is_suite_enabled`
returns 1 if some element of `cats` equals, up to case, some entry of the enabled set
taken after the lazy default, and 0 if not. -/
theorem is_suite_enabled_categories (lit : Nat) (enabled : clar_category_list)
    (suite : clar_suite) (cats : List CharPtr) (hs : suite.categories = some cats) :
    ((clar_category_is_suite_enabled lit enabled suite).1 = 1 ↔
      ∃ cat ∈ cats, ∃ n ∈ names_after_default lit enabled, strcasecmp cat.str n.str = 0) ∧
    ((clar_category_is_suite_enabled lit enabled suite).1 = 0 ∨
      (clar_category_is_suite_enabled lit enabled suite).1 = 1) ∧
    (clar_category_is_suite_enabled lit enabled suite).2.names =
      names_after_default lit enabled := by
  have hn := is_suite_enabled_names lit enabled suite
  have h1 : (clar_category_is_suite_enabled lit enabled suite).1 =
      scan_loop (clar_category_is_suite_enabled lit enabled suite).2 cats := by
    simp [clar_category_is_suite_enabled, hs]
  refine ⟨?_, ?_, hn⟩
  · rw [h1, scan_loop_eq_one_iff, hn]
  · rw [h1]
    exact scan_loop_zero_or_one _ _

/-- C4, witness: a suite of the categories `slow` and `NET` against the enabled set
`net`. -/
theorem is_suite_enabled_categories_witness :
    (example_suite (some [⟨1, "slow".toList⟩, ⟨2, "NET".toList⟩])).categories =
      some [⟨1, "slow".toList⟩, ⟨2, "NET".toList⟩] ∧
    ((clar_category_is_suite_enabled 4096 example_enabled
        (example_suite (some [⟨1, "slow".toList⟩, ⟨2, "NET".toList⟩]))).1 = 0 ∨
      (clar_category_is_suite_enabled 4096 example_enabled
        (example_suite (some [⟨1, "slow".toList⟩, ⟨2, "NET".toList⟩]))).1 = 1) :=
  ⟨rfl, (is_suite_enabled_categories 4096 example_enabled
    (example_suite (some [⟨1, "slow".toList⟩, ⟨2, "NET".toList⟩]))
    [⟨1, "slow".toList⟩, ⟨2, "NET".toList⟩] rfl).2.1⟩

theorem char_toNat_inj (a b : Char) (h : a.toNat = b.toNat) : a = b := by
  rw [← Char.ofNat_toNat a, ← Char.ofNat_toNat b, h]

theorem char_sub_eq_zero (a b : Char) (h : a ≠ b) : (a.toNat : Int) - (b.toNat : Int) ≠ 0 := by
  intro h0
  apply h
  apply char_toNat_inj
  omega

/-- On C strings, `strcmp` returns 0 exactly for identical contents. -/
theorem strcmp_eq_zero_iff (a b : CStr) (ha : is_c_string a) (hb : is_c_string b) :
    strcmp a b = 0 ↔ a = b := by
  induction a generalizing b with
  | nil =>
    cases b with
    | nil => simp [strcmp]
    | cons y ys =>
      have := hb y (List.mem_cons_self _ _)
      simp only [strcmp, neg_eq_zero, Int.natCast_eq_zero]
      simp [this]
  | cons x xs ih =>
    cases b with
    | nil =>
      have := ha x (List.mem_cons_self _ _)
      simp only [strcmp, Int.natCast_eq_zero]
      simp [this]
    | cons y ys =>
      simp only [strcmp]
      by_cases h : x = y
      · subst h
        rw [if_pos rfl, ih ys (fun ch hch => ha ch (List.mem_cons_of_mem _ hch))
          (fun ch hch => hb ch (List.mem_cons_of_mem _ hch))]
        simp
      · rw [if_neg h]
        simp [h, char_sub_eq_zero x y h]

theorem match_s_iff (s1 s2 : Option CStr) (h1 : is_c_string_or_null s1)
    (h2 : is_c_string_or_null s2) : match_s s1 s2 = true ↔ s1 = s2 := by
  cases s1 with
  | none => cases s2 <;> simp [match_s]
  | some a =>
    cases s2 with
    | none => simp [match_s]
    | some b => simp [match_s, strcmp_eq_zero_iff a b (h1 a rfl) (h2 b rfl)]

/-- C5 (as amended).  For C strings `s1` and `s2`, each possibly null,
`clar__assert_equal_s` records no error (and changes nothing) if and only if both are
null or both are non-null with identical contents.  When both are non-null and differ it
records exactly one error, by `clar__assert` with condition 0, whose description is the
first 4095 bytes of the text `'s1' != 's2'`: the whole text when the two strings have at
most 4087 bytes together. -/
theorem clar__assert_equal_s_description (c : Clar) (s1 s2 : Option CStr) (file : CStr)
    (line : Int) (err : CStr) (should_abort : Int)
    (h1 : is_c_string_or_null s1) (h2 : is_c_string_or_null s2) :
    ((clar__assert_equal_s c s1 s2 file line err should_abort).2.total_errors =
      c.total_errors ↔ s1 = s2) ∧
    (s1 = s2 → clar__assert_equal_s c s1 s2 file line err should_abort = (Flow.ret, c)) ∧
    (∀ a b, s1 = some a → s2 = some b → a ≠ b →
      clar__assert_equal_s c s1 s2 file line err should_abort =
        clar__assert c 0 file line err (some ((not_equal_text a b).take 4095)) should_abort ∧
      (clar__assert_equal_s c s1 s2 file line err should_abort).2.total_errors =
        c.total_errors + 1 ∧
      (should_abort = 0 ∨ c.trampoline_enabled ≠ 0 →
        (clar__assert_equal_s c s1 s2 file line err should_abort).2.errors =
          c.errors ++ [Failure.record c ⟨file, line, err,
            some ((not_equal_text a b).take 4095)⟩]) ∧
      (a.length + b.length ≤ 4087 → (not_equal_text a b).take 4095 = not_equal_text a b)) := by
  have htot : ∀ (d : Option CStr),
      (clar__assert c 0 file line err d should_abort).2.total_errors = c.total_errors + 1 := by
    intro d
    by_cases ha : should_abort = 0
    · simp [clar__assert, ha]
    · by_cases ht : c.trampoline_enabled = 0 <;> simp [clar__assert, ha, ht, clar_report_errors]
  by_cases hm : s1 = s2
  · have hms : match_s s1 s2 = true := (match_s_iff s1 s2 h1 h2).2 hm
    have hr : clar__assert_equal_s c s1 s2 file line err should_abort = (Flow.ret, c) := by
      simp [clar__assert_equal_s, hms]
    refine ⟨⟨fun _ => hm, fun _ => by rw [hr]⟩, fun _ => hr, ?_⟩
    intro a b ha hb hab
    rw [ha, hb] at hm
    exact absurd (Option.some.inj hm) hab
  · have hms : ¬ match_s s1 s2 = true := fun h => hm ((match_s_iff s1 s2 h1 h2).1 h)
    have hr : clar__assert_equal_s c s1 s2 file line err should_abort =
        clar__assert c 0 file line err (some (snprint_eq_s 4096 s1 s2)) should_abort := by
      simp [clar__assert_equal_s, hms]
    refine ⟨?_, fun h => absurd h hm, ?_⟩
    · rw [hr, htot]
      simp [hm]
    · intro a b ha hb _
      have hd : snprint_eq_s 4096 s1 s2 = (not_equal_text a b).take 4095 := by
        simp [snprint_eq_s, not_equal_text, ha, hb, fmt_s]
      rw [hr, hd]
      refine ⟨rfl, htot _, ?_, ?_⟩
      · intro hcase
        rcases hcase with h0 | h0
        · simp [clar__assert, h0, Failure.record]
        · by_cases ha0 : should_abort = 0 <;> simp [clar__assert, ha0, h0, Failure.record]
      · intro hlen
        apply List.take_of_length_le
        simp [not_equal_text]
        omega

/-- C5, witness: the strings `abc` and `abd`, whose failure is described by the text
`'abc' != 'abd'`. -/
theorem clar__assert_equal_s_description_witness :
    (is_c_string_or_null (some "abc".toList) ∧ is_c_string_or_null (some "abd".toList)) ∧
    (clar__assert_equal_s Clar.init (some "abc".toList) (some "abd".toList) "t.c".toList 7
        "differ".toList 0).2.errors =
      Clar.init.errors ++ [Failure.record Clar.init ⟨"t.c".toList, 7, "differ".toList,
        some ((not_equal_text "abc".toList "abd".toList).take 4095)⟩] ∧
    (not_equal_text "abc".toList "abd".toList).take 4095 = "'abc' != 'abd'".toList :=
  ⟨⟨by simp [is_c_string_or_null, is_c_string],
    by simp [is_c_string_or_null, is_c_string]⟩,
   ((clar__assert_equal_s_description Clar.init (some "abc".toList) (some "abd".toList)
      "t.c".toList 7 "differ".toList 0
      (by simp [is_c_string_or_null, is_c_string])
      (by simp [is_c_string_or_null, is_c_string])).2.2
      "abc".toList "abd".toList rfl rfl (by decide)).2.2.1 (Or.inl rfl),
   by decide⟩

theorem description_truncated (c : Clar) (a b : CStr) (file : CStr) (line : Int) (err : CStr)
    (hm : match_s (some a) (some b) = false) (hlen : 4087 < a.length + b.length) :
    (clar__assert_equal_s c (some a) (some b) file line err 0).2.errors.map
        clar_error.description ≠
      c.errors.map clar_error.description ++ [some (not_equal_text a b)] := by
  intro h
  simp only [clar__assert_equal_s, hm, clar__assert, snprint_eq_s, fmt_s] at h
  simp only [Bool.not_false, if_true, ne_eq, not_true_eq_false, if_false, List.map_append,
    List.map_cons, List.map_nil, List.append_cancel_left_eq, List.cons.injEq, Option.some.injEq,
    and_true] at h
  have := congrArg List.length h
  simp only [not_equal_text, List.length_take, List.length_append, List.length_cons,
    List.length_nil] at this
  have h6 : "' != '".toList.length = 6 := by decide
  rw [h6] at this
  omega

/-- C5, counterexample to the claim as stated: for a first string of 4095 bytes the
description that is recorded is not the text `'s1' != 's2'` in full. -/
theorem clar__assert_equal_s_truncates :
    (clar__assert_equal_s Clar.init (some (List.replicate 4095 'a')) (some ['b'])
        "t.c".toList 7 "differ".toList 0).2.errors.map clar_error.description ≠
      Clar.init.errors.map clar_error.description ++
        [some (not_equal_text (List.replicate 4095 'a') ['b'])] := by
  apply description_truncated
  · have : List.replicate 4095 'a' = 'a' :: List.replicate 4094 'a' := rfl
    rw [this]
    decide
  · rw [List.length_replicate]
    decide

set_option maxRecDepth 100000 in
/-- C6, the code at the failing input.  With one registered suite, the selector
`-s4294967296` names a suite number that does not exist, yet its value wraps to 0 in
the `int` of `clar_parse_args`: suite 0 is run, its test is called, and the process ends
with status 0 instead of aborting. -/
theorem clar_parse_args_suite_number_wraps :
    passing_image._clar_suite_count = 1 ∧
    (scan_suite_arg { num := 0, len := 0, is_num := 1, has_colon := 0 }
      "4294967296".toList).num = 0 ∧
    (main passing_image 0 Clar.init argv_wrap).1 = Flow.exit 0 ∧
    (main passing_image 0 Clar.init argv_wrap).2.output =
      [Event.print_init 1 1 [], Event.print_onsuite "encode".toList 0, Event.call_test 5,
       Event.print_ontest "all_code128a_points".toList 1 false,
       Event.print_shutdown 1 1 0, Event.unsandbox] := by
  decide

set_option maxRecDepth 100000 in
/-- C7, the code at the failing input.  For `clar -ib -ia -l` the categories are printed in
the order `default`, `a`, `b`: `qsort` has ordered the slots of the array by the bytes of
the pointers they hold, because `clar_category_cmp` compares what its arguments point
to, and `a` comes before `b` although `strcasecmp("a", "b") < 0`. -/
theorem clar_category_print_enabled_orders_pointers :
    (main passing_image 0 Clar.init argv_list).1 = Flow.exit 0 ∧
    (main passing_image 0 Clar.init argv_list).2.categorize_enabled.names.map CharPtr.str =
      ["default".toList, "a".toList, "b".toList] ∧
    (main passing_image 0 Clar.init argv_list).2.output.drop 4 =
      [Event.printf " - default\n".toList, Event.printf " - a\n".toList,
       Event.printf " - b\n".toList] ∧
    strcasecmp "a".toList "b".toList < 0 := by
  decide

theorem toLower_toNat_ne_zero (ch : Char) (h : ch.toNat ≠ 0) : ch.toLower.toNat ≠ 0 := by
  intro h0
  have h1 : ch.toLower = Char.ofNat 0 := char_toNat_inj _ _ (by rw [h0]; rfl)
  unfold Char.toLower at h1
  simp only at h1
  split at h1
  · rename_i hu
    generalize ch.toNat = n at hu h1
    obtain ⟨hu1, hu2⟩ := hu
    interval_cases n <;> revert h1 <;> decide
  · rw [h1] at h
    exact h rfl

theorem strcasecmp_eq_zero_of_same (a b : CStr) (h : same_up_to_case a b) :
    strcasecmp a b = 0 := by
  induction a generalizing b with
  | nil =>
    cases b with
    | nil => rfl
    | cons y ys => simp [same_up_to_case] at h
  | cons x xs ih =>
    cases b with
    | nil => simp [same_up_to_case] at h
    | cons y ys =>
      simp only [same_up_to_case, List.map_cons, List.cons.injEq] at h
      simp only [strcasecmp, h.1, if_true]
      exact ih ys h.2

theorem same_of_strcasecmp_eq_zero (a b : CStr) (ha : is_c_string a) (hb : is_c_string b)
    (h : strcasecmp a b = 0) : same_up_to_case a b := by
  induction a generalizing b with
  | nil =>
    cases b with
    | nil => rfl
    | cons y ys =>
      have := toLower_toNat_ne_zero y (hb y (List.mem_cons_self _ _))
      simp only [strcasecmp, neg_eq_zero, Int.natCast_eq_zero] at h
      exact absurd h this
  | cons x xs ih =>
    cases b with
    | nil =>
      have := toLower_toNat_ne_zero x (ha x (List.mem_cons_self _ _))
      simp only [strcasecmp, Int.natCast_eq_zero] at h
      exact absurd h this
    | cons y ys =>
      simp only [strcasecmp] at h
      by_cases hxy : x.toLower = y.toLower
      · rw [if_pos hxy] at h
        have := ih ys (fun ch hch => ha ch (List.mem_cons_of_mem _ hch))
          (fun ch hch => hb ch (List.mem_cons_of_mem _ hch)) h
        simp only [same_up_to_case, List.map_cons, hxy] at this ⊢
        rw [this]
      · rw [if_neg hxy] at h
        exact absurd h (char_sub_eq_zero _ _ hxy)

theorem add_to_list_of_in_list (list : clar_category_list) (cat : CharPtr)
    (h : in_list_loop cat list.names ≠ 0) : clar_category_add_to_list list cat = list := by
  simp [clar_category_add_to_list, clar_category_in_list, h]

theorem add_to_list_names_of_not_in_list (list : clar_category_list) (cat : CharPtr)
    (h : in_list_loop cat list.names = 0) :
    (clar_category_add_to_list list cat).names = list.names ++ [cat] := by
  simp only [clar_category_add_to_list, clar_category_in_list, h, ne_eq, not_true_eq_false,
    if_false]
  split <;> rfl

theorem in_list_loop_append_self (cat cat2 : CharPtr) (names : List CharPtr)
    (h : strcasecmp cat2.str cat.str = 0) : in_list_loop cat2 (names ++ [cat]) ≠ 0 := by
  rw [in_list_loop_ne_zero_iff]
  exact ⟨cat, by simp, h⟩

/-- C8.  For a list `L` of C strings without case-insensitive duplicates and a category
`c`, `clar_category_enable` yields a list that holds an entry equal to `c` up to case,
that is `L` itself or `L` followed by `c` (every earlier entry keeps its position), and
that has no case-insensitive duplicates; enabling `c` again, or a name that differs from
`c` only in the case of letters, leaves that list as it is (same entries, same `count`,
same `alloc`). -/
theorem clar_category_enable_idempotent (L : clar_category_list) (c : CharPtr)
    (hL : ∀ n ∈ L.names, is_c_string n.str) (hc : is_c_string c.str)
    (hnd : no_case_duplicates L.names) :
    (∃ n ∈ (clar_category_enable L c).names, same_up_to_case c.str n.str) ∧
    L.names <+: (clar_category_enable L c).names ∧
    ((clar_category_enable L c).names = L.names ∨
      (clar_category_enable L c).names = L.names ++ [c]) ∧
    no_case_duplicates (clar_category_enable L c).names ∧
    clar_category_enable (clar_category_enable L c) c = clar_category_enable L c ∧
    (∀ c2 : CharPtr, same_up_to_case c2.str c.str →
      clar_category_enable (clar_category_enable L c) c2 = clar_category_enable L c ∧
      (clar_category_enable (clar_category_enable L c) c2).count =
        (clar_category_enable L c).count) := by
  simp only [clar_category_enable]
  by_cases h : in_list_loop c L.names ≠ 0
  · rw [add_to_list_of_in_list L c h]
    obtain ⟨n, hn, hs⟩ := (in_list_loop_ne_zero_iff c L.names).1 h
    refine ⟨⟨n, hn, same_of_strcasecmp_eq_zero _ _ hc (hL n hn) hs⟩, List.prefix_refl _,
      Or.inl rfl, hnd, add_to_list_of_in_list L c h, ?_⟩
    intro c2 h2
    have h3 : in_list_loop c2 L.names ≠ 0 := by
      rw [in_list_loop_ne_zero_iff]
      refine ⟨n, hn, strcasecmp_eq_zero_of_same _ _ ?_⟩
      have hs2 := same_of_strcasecmp_eq_zero _ _ hc (hL n hn) hs
      simp only [same_up_to_case] at h2 hs2 ⊢
      rw [h2, hs2]
    rw [add_to_list_of_in_list L c2 h3]
    exact ⟨rfl, rfl⟩
  · have h0 : in_list_loop c L.names = 0 := not_not.1 h
    have hn := add_to_list_names_of_not_in_list L c h0
    have hself : ∀ c2 : CharPtr, same_up_to_case c2.str c.str →
        clar_category_add_to_list (clar_category_add_to_list L c) c2 =
          clar_category_add_to_list L c := by
      intro c2 h2
      apply add_to_list_of_in_list
      rw [hn]
      exact in_list_loop_append_self c c2 L.names (strcasecmp_eq_zero_of_same _ _ h2)
    refine ⟨⟨c, by rw [hn]; simp, rfl⟩, by rw [hn]; exact List.prefix_append _ _,
      Or.inr hn, ?_, hself c rfl, fun c2 h2 => ⟨hself c2 h2, by rw [hself c2 h2]⟩⟩
    rw [hn]
    unfold no_case_duplicates
    rw [List.pairwise_append]
    refine ⟨hnd, List.pairwise_singleton _ _, ?_⟩
    intro n hn2 b hb hsame
    rw [List.mem_singleton] at hb
    rw [hb] at hsame
    have : in_list_loop c L.names ≠ 0 := by
      rw [in_list_loop_ne_zero_iff]
      exact ⟨n, hn2, strcasecmp_eq_zero_of_same _ _ hsame.symm⟩
    exact this h0

/-- C8, witness: enabling `Net` in the list that holds `net`. -/
theorem clar_category_enable_idempotent_witness :
    ((∀ n ∈ example_enabled.names, is_c_string n.str) ∧ is_c_string "Net".toList ∧
      no_case_duplicates example_enabled.names) ∧
    clar_category_enable (clar_category_enable example_enabled ⟨1, "Net".toList⟩)
        ⟨1, "Net".toList⟩ =
      clar_category_enable example_enabled ⟨1, "Net".toList⟩ :=
  ⟨⟨by simp [example_enabled, is_c_string], by simp [is_c_string],
    by simp [example_enabled, no_case_duplicates]⟩,
   (clar_category_enable_idempotent example_enabled ⟨1, "Net".toList⟩
      (by simp [example_enabled, is_c_string]) (by simp [is_c_string])
      (by simp [example_enabled, no_case_duplicates])).2.2.2.2.1⟩

theorem mem_declared_categories (suites : List clar_suite) (n : CharPtr) :
    n ∈ declared_categories suites ↔
      ∃ s ∈ suites, ∃ cats, s.categories = some cats ∧ n ∈ cats := by
  induction suites with
  | nil => simp [declared_categories]
  | cons s rest ih =>
    simp only [declared_categories, List.mem_append, ih, List.mem_cons, exists_eq_or_imp]
    cases hs : s.categories <;> simp

theorem enable_suites_eq_enable_cats (enabled : clar_category_list) (suites : List clar_suite) :
    enable_suites enabled suites = enable_cats enabled (declared_categories suites) := by
  induction suites generalizing enabled with
  | nil => rfl
  | cons s rest ih =>
    have happ : ∀ (e : clar_category_list) (a b : List CharPtr),
        enable_cats e (a ++ b) = enable_cats (enable_cats e a) b := by
      intro e a b
      induction a generalizing e with
      | nil => rfl
      | cons x a iha => simp [enable_cats, iha]
    simp only [enable_suites, declared_categories]
    cases hs : s.categories with
    | none => simp [ih]
    | some cats => simp [ih, happ]

/-- What the loop of `clar_category_enable` over the categories `cats` does to the
enabled set: it keeps the entries in place, makes every category of `cats` a member up
to case, and adds nothing but categories of `cats`. -/
theorem enable_cats_members (enabled : clar_category_list) (cats : List CharPtr) :
    enabled.names <+: (enable_cats enabled cats).names ∧
    (∀ cat ∈ cats, ∃ n ∈ (enable_cats enabled cats).names, strcasecmp cat.str n.str = 0) ∧
    (∀ n ∈ (enable_cats enabled cats).names, n ∈ enabled.names ∨ n ∈ cats) := by
  induction cats generalizing enabled with
  | nil => exact ⟨List.prefix_refl _, by simp, fun n hn => Or.inl hn⟩
  | cons cat rest ih =>
    obtain ⟨p, m, o⟩ := ih (clar_category_enable enabled cat)
    have hstep : enabled.names <+: (clar_category_enable enabled cat).names ∧
        (∃ n ∈ (clar_category_enable enabled cat).names, strcasecmp cat.str n.str = 0) ∧
        (∀ n ∈ (clar_category_enable enabled cat).names, n ∈ enabled.names ∨ n = cat) := by
      simp only [clar_category_enable]
      by_cases h : in_list_loop cat enabled.names ≠ 0
      · rw [add_to_list_of_in_list enabled cat h]
        exact ⟨List.prefix_refl _, (in_list_loop_ne_zero_iff _ _).1 h, fun n hn => Or.inl hn⟩
      · rw [add_to_list_names_of_not_in_list enabled cat (not_not.1 h)]
        refine ⟨List.prefix_append _ _, ⟨cat, by simp, strcasecmp_eq_zero_of_same _ _ rfl⟩, ?_⟩
        intro n hn
        simpa using hn
    simp only [enable_cats]
    refine ⟨hstep.1.trans p, ?_, ?_⟩
    · intro x hx
      rcases List.mem_cons.1 hx with rfl | hx
      · obtain ⟨n, hn, hs⟩ := hstep.2.1
        exact ⟨n, p.subset hn, hs⟩
      · exact m x hx
    · intro n hn
      rcases o n hn with h | h
      · rcases hstep.2.2 n h with h | h
        · exact Or.inl h
        · exact Or.inr (by rw [h]; exact List.mem_cons_self _ _)
      · exact Or.inr (List.mem_cons_of_mem _ h)

/-- C9.  After `clar_category_enable_all` on a prior enabled set `E`, the enabled set
starts with the entries of `E` in place, holds an entry equal to `"default"` up to
case and, for every category tag declared by any suite, an entry equal to it up to case;
every entry is an entry of `E`, the literal `"default"`, or a tag declared by a suite;
and the suites whose `categories` pointer is null can be left out without changing the
result. -/
theorem clar_category_enable_all_members (lit : Nat) (E : clar_category_list)
    (suites : List clar_suite) :
    E.names <+: (clar_category_enable_all lit E suites).names ∧
    (∃ n ∈ (clar_category_enable_all lit E suites).names,
      strcasecmp "default".toList n.str = 0) ∧
    (∀ s ∈ suites, ∀ cats, s.categories = some cats → ∀ cat ∈ cats,
      ∃ n ∈ (clar_category_enable_all lit E suites).names, strcasecmp cat.str n.str = 0) ∧
    (∀ n ∈ (clar_category_enable_all lit E suites).names,
      n ∈ E.names ∨ n = CLAR_CATEGORY_DEFAULT lit ∨
        ∃ s ∈ suites, ∃ cats, s.categories = some cats ∧ n ∈ cats) ∧
    clar_category_enable_all lit E suites =
      clar_category_enable_all lit E (suites.filter (fun s => s.categories.isSome)) := by
  have heq : ∀ l : List clar_suite, clar_category_enable_all lit E l =
      enable_cats E (CLAR_CATEGORY_DEFAULT lit :: declared_categories l) := by
    intro l
    simp only [clar_category_enable_all, enable_suites_eq_enable_cats, enable_cats]
  have hfilter : declared_categories (suites.filter (fun s => s.categories.isSome)) =
      declared_categories suites := by
    induction suites with
    | nil => rfl
    | cons s rest ih =>
      cases hs : s.categories with
      | none => simp [List.filter_cons, hs, declared_categories, ih]
      | some cats => simp [List.filter_cons, hs, declared_categories, ih]
  obtain ⟨p, m, o⟩ := enable_cats_members E (CLAR_CATEGORY_DEFAULT lit :: declared_categories suites)
  rw [heq suites]
  refine ⟨p, m _ (List.mem_cons_self _ _), ?_, ?_, ?_⟩
  · intro s hs cats hc cat hcat
    exact m cat (List.mem_cons_of_mem _ ((mem_declared_categories suites cat).2 ⟨s, hs, cats, hc, hcat⟩))
  · intro n hn
    rcases o n hn with h | h
    · exact Or.inl h
    · rcases List.mem_cons.1 h with h | h
      · exact Or.inr (Or.inl h)
      · exact Or.inr (Or.inr ((mem_declared_categories suites n).1 h))
  · rw [heq, hfilter]

/-- C9, witness: the example suites enabled on top of the set `net`; the tag `Slow` of
the first suite is in the result. -/
theorem clar_category_enable_all_members_witness :
    (example_suite (some [⟨1, "net".toList⟩, ⟨2, "Slow".toList⟩])).categories =
      some [⟨1, "net".toList⟩, ⟨2, "Slow".toList⟩] ∧
    ∃ n ∈ (clar_category_enable_all 4096 example_enabled example_suites).names,
      strcasecmp "Slow".toList n.str = 0 :=
  ⟨rfl, (clar_category_enable_all_members 4096 example_enabled example_suites).2.2.1
    (example_suite (some [⟨1, "net".toList⟩, ⟨2, "Slow".toList⟩])) (by decide)
    [⟨1, "net".toList⟩, ⟨2, "Slow".toList⟩] rfl ⟨2, "Slow".toList⟩ (by decide)⟩

/-- The events of `clar_report_errors`: the record at position `j` of the ledger is
printed at position `j`, with the number `i + j`. -/
theorem report_loop_get (i : Int) (errors : List clar_error) (j : Nat) :
    (report_loop i errors)[j]? = (errors[j]?).map (Event.print_error (i + j)) := by
  induction errors generalizing i j with
  | nil => simp [report_loop]
  | cons e rest ih =>
    cases j with
    | zero => simp [report_loop]
    | succ j =>
      have hij : i + 1 + (j : Int) = i + ((j + 1 : Nat) : Int) := by push_cast; ring
      simp only [report_loop, List.getElem?_cons_succ, ih, hij]

theorem report_loop_length (i : Int) (errors : List clar_error) :
    (report_loop i errors).length = errors.length := by
  induction errors generalizing i with
  | nil => rfl
  | cons e rest ih => simp [report_loop, ih]

/-- C10.  A failing assertion with `should_abort` set, raised while
`trampoline_enabled` is 0, ends with `exit(-1)` and not with `longjmp`: the failure is
recorded first (both counters grow by one), then `clar_print_onabort` is called and
every record of the ledger, the new one last, is printed once in insertion order,
numbered from 1, and the ledger is left empty.  No call after it is made in the callback
that raised it, and every caller hands the exit on: `clar_run_test` skips the teardown
(when the local cleanup raised it), the rest of the test and its report, `clar_run_suite`
runs no further test and `clar_test` no further suite. -/
theorem clar__assert_fatal_outside_region (c : Clar) (file : CStr) (line : Int)
    (error_msg : CStr) (description : Option CStr) (should_abort : Int)
    (ht : c.trampoline_enabled = 0) (ha : should_abort ≠ 0) :
    (clar__assert c 0 file line error_msg description should_abort).1 = Flow.exit (-1) ∧
    (clar__assert c 0 file line error_msg description should_abort).2.output =
      c.output ++
        Event.print_onabort "Fatal error: a cleanup method raised an exception.".toList ::
          report_loop 1
            (c.errors ++ [Failure.record c ⟨file, line, error_msg, description⟩]) ∧
    (report_loop 1
        (c.errors ++ [Failure.record c ⟨file, line, error_msg, description⟩])).length =
      c.errors.length + 1 ∧
    (∀ j : Nat,
      (report_loop 1 (c.errors ++ [Failure.record c ⟨file, line, error_msg, description⟩]))[j]? =
        ((c.errors ++ [Failure.record c ⟨file, line, error_msg, description⟩])[j]?).map
          (Event.print_error (1 + j))) ∧
    (clar__assert c 0 file line error_msg description should_abort).2.errors = [] ∧
    (clar__assert c 0 file line error_msg description should_abort).2.suite_errors =
      c.suite_errors + 1 ∧
    (clar__assert c 0 file line error_msg description should_abort).2.total_errors =
      c.total_errors + 1 ∧
    (∀ (c0 : Clar) (pre post : List Call), run_calls c0 pre = (Flow.ret, c) →
      run_calls c0
          (pre ++ Call.clar__assert 0 file line error_msg description should_abort :: post) =
        clar__assert c 0 file line error_msg description should_abort) ∧
    (∀ (img : Image) (d : Clar) (test cleanup : clar_func) (e : Int) (f : Nat) (s : Int)
        (c1 : Clar), d.local_cleanup = some f →
      call_ptr img { d with trampoline_enabled := 0 }
          (Event.call_local_cleanup f d.local_cleanup_payload) f d.local_cleanup_payload =
        (Flow.exit s, c1) →
      after_region img d test cleanup e = (Flow.exit s, c1)) ∧
    (∀ (img : Image) (d : Clar) (test cleanup : clar_func) (e : Int) (g : Nat) (s : Int)
        (c1 : Clar), d.local_cleanup = none → cleanup.ptr = some g →
      call_ptr img { d with trampoline_enabled := 0 } (Event.call_cleanup g) g none =
        (Flow.exit s, c1) →
      after_region img d test cleanup e = (Flow.exit s, c1)) ∧
    (∀ (img : Image) (suite : clar_suite) (c0 : Clar) (test : clar_func)
        (rest : List clar_func) (s : Int) (c1 : Clar),
      clar_run_test img { c0 with active_test := some test.name } test suite.initialise
          suite.cleanup = (Flow.exit s, c1) →
      run_tests img suite c0 (test :: rest) = (Flow.exit s, c1)) ∧
    (∀ (img : Image) (c0 : Clar) (suite : clar_suite) (rest : List clar_suite) (s : Int)
        (c1 : Clar), clar_run_suite img c0 suite = (Flow.exit s, c1) →
      run_all img c0 (suite :: rest) = (Flow.exit s, c1)) := by
  have hr : clar__assert c 0 file line error_msg description should_abort =
      (Flow.exit (-1), clar_report_errors
        { c with errors := c.errors ++ [Failure.record c ⟨file, line, error_msg, description⟩],
                 suite_errors := c.suite_errors + 1,
                 total_errors := c.total_errors + 1,
                 output := c.output ++ [Event.print_onabort
                   "Fatal error: a cleanup method raised an exception.".toList] }) := by
    simp [clar__assert, ha, ht, Failure.record]
  refine ⟨by rw [hr], by rw [hr]; simp [clar_report_errors], ?_, ?_, by rw [hr]; rfl,
    by rw [hr]; rfl, by rw [hr]; rfl, ?_, ?_, ?_, ?_, ?_⟩
  · rw [report_loop_length, List.length_append, List.length_singleton]
  · intro j
    rw [report_loop_get]
  · intro c0 pre post hpre
    rw [run_calls_append_ret c0 c pre _ hpre]
    simp only [run_calls, run_call, hr]
  · intro img d test cleanup e f s c1 hlc hcall
    simp only [hlc] at hcall
    simp only [after_region, hlc, hcall]
  · intro img d test cleanup e g s c1 hlc hp hcall
    simp only [hlc] at hcall
    simp only [after_region, hlc, hp, hcall]
  · intro img suite c0 test rest s c1 h
    simp only [run_tests, h]
  · intro img c0 suite rest s c1 h
    simp only [run_all, h]

/-- C10, witness: a fatal failure raised in the initial state, where no abort region is
armed. -/
theorem clar__assert_fatal_outside_region_witness :
    (Clar.init.trampoline_enabled = 0 ∧ (1 : Int) ≠ 0) ∧
    (clar__assert Clar.init 0 "t.c".toList 7 "failed".toList none 1).1 = Flow.exit (-1) :=
  ⟨⟨rfl, by decide⟩,
   (clar__assert_fatal_outside_region Clar.init "t.c".toList 7 "failed".toList none 1 rfl
      (by decide)).1⟩

theorem wrap_int_of_fits (x : Int) (h0 : 0 ≤ x) (h1 : x < 2 ^ 31) : wrap_int x = x := by
  unfold wrap_int
  norm_num at h1 ⊢
  omega

theorem le_foldl_digits (digits : CStr) (v : Nat) :
    v ≤ digits.foldl (fun v ch => 10 * v + (ch.toNat - 48)) v := by
  induction digits generalizing v with
  | nil => exact Nat.le_refl _
  | cons ch rest ih =>
    simp only [List.foldl_cons]
    exact Nat.le_trans (by omega) (ih _)

theorem digit_toNat (ch : Char) (h : '0' ≤ ch ∧ ch ≤ '9') : 48 ≤ ch.toNat ∧ ch.toNat ≤ 57 := by
  obtain ⟨h1, h2⟩ := h
  rw [Char.le_def] at h1 h2
  exact ⟨h1, h2⟩

/-- The scan of a string of digits whose value fits in an `int` computes that value
without wrap-around. -/
theorem scan_suite_arg_digits (st : SuiteArg) (digits : CStr) (v : Nat)
    (hdig : ∀ ch ∈ digits, '0' ≤ ch ∧ ch ≤ '9') (hv : st.num = (v : Int))
    (hfit : digits.foldl (fun v ch => 10 * v + (ch.toNat - 48)) v < 2 ^ 31) :
    scan_suite_arg st digits =
      { st with num := ((digits.foldl (fun v ch => 10 * v + (ch.toNat - 48)) v : Nat) : Int),
                len := st.len + digits.length } := by
  induction digits generalizing st v with
  | nil =>
    cases st
    simp_all [scan_suite_arg]
  | cons ch rest ih =>
    have hd := hdig ch (List.mem_cons_self _ _)
    have hn := digit_toNat ch hd
    have hle := le_foldl_digits rest (10 * v + (ch.toNat - 48))
    simp only [List.foldl_cons] at hfit ⊢
    have h48 : (('0' : Char).toNat : Int) = 48 := by decide
    have hw : wrap_int (wrap_int (st.num * 10) + ((ch.toNat : Int) - (('0' : Char).toNat : Int))) =
        ((10 * v + (ch.toNat - 48) : Nat) : Int) := by
      rw [hv, h48, wrap_int_of_fits ((v : Int) * 10) (by omega) (by norm_num at hfit ⊢; omega),
        wrap_int_of_fits _ (by omega) (by norm_num at hfit ⊢; omega)]
      omega
    simp only [scan_suite_arg, hd, and_self, if_true, hw]
    rw [ih _ (10 * v + (ch.toNat - 48)) (fun c hc => hdig c (List.mem_cons_of_mem _ hc)) rfl hfit]
    simp only [List.length_cons, SuiteArg.mk.injEq, true_and, and_true]
    omega

/-- The selector `-sN` or `-s=N`, for a non-empty string of digits `N` whose value fits in
an `int`: when the value is not the index of a suite, the run aborts with `exit(-1)` and
no suite is run; when it is, that suite alone is handed to `clar_run_suite`, and the run
aborts afterwards if no suite is active. -/
theorem parse_suite_arg_in_range (img : Image) (c : Clar) (argv0 : CStr) (arg : CharPtr)
    (digits : CStr)
    (harg : arg.str = '-' :: 's' :: digits ∨ arg.str = '-' :: 's' :: '=' :: digits)
    (hne : digits ≠ []) (hdig : ∀ ch ∈ digits, '0' ≤ ch ∧ ch ≤ '9')
    (hfit : decimal_value digits < 2 ^ 31) :
    (img._clar_suite_count ≤ decimal_value digits →
      parse_suite_arg img c argv0 arg =
        (Flow.exit (-1), clar_print_onabort c
          ("Suite number ".toList ++ fmt_d (decimal_value digits) ++
            " does not exist.\n".toList))) ∧
    (∀ suite, img._clar_suites.get? (decimal_value digits) = some suite →
      parse_suite_arg img c argv0 arg =
        match clar_run_suite img c suite with
        | (Flow.ret, c1) =>
          if c1.active_suite = none then
            (Flow.exit (-1), clar_print_onabort c1
              ("No suite matching ".toList ++ quote :: digits ++ quote :: " found.\n".toList))
          else (Flow.ret, c1)
        | r => r) := by
  unfold decimal_value at hfit ⊢
  obtain ⟨d0, drest, hd0⟩ := List.exists_cons_of_ne_nil hne
  have hd0dig := digit_toNat d0 (hdig d0 (by rw [hd0]; exact List.mem_cons_self _ _))
  have hne_eq : d0 ≠ '=' := by
    intro h
    rw [h] at hd0dig
    revert hd0dig
    decide
  have hdrop : arg.str.drop (if char_at arg.str 2 = '=' then 3 else 2) = digits := by
    rcases harg with h | h
    · rw [h, hd0]
      simp [char_at, hne_eq]
    · rw [h]
      simp [char_at]
  have hscan := scan_suite_arg_digits { num := 0, len := 0, is_num := 1, has_colon := 0 }
    digits 0 hdig rfl hfit
  have hlen : digits.length ≠ 0 := by
    rw [hd0]; simp
  have hsz : size_t_of ((digits.foldl (fun v ch => 10 * v + (ch.toNat - 48)) 0 : Nat) : Int) =
      digits.foldl (fun v ch => 10 * v + (ch.toNat - 48)) 0 := by
    unfold size_t_of
    norm_num at hfit ⊢
    omega
  constructor
  · intro hge
    simp only [parse_suite_arg, hdrop, hscan]
    simp [hlen, hsz, hge]
  · intro suite hsuite
    have hlt : ¬ img._clar_suite_count ≤
        digits.foldl (fun v ch => 10 * v + (ch.toNat - 48)) 0 := by
      intro hge
      have := List.get?_eq_none.2 (show img._clar_suites.length ≤ _ from hge)
      rw [this] at hsuite
      exact Option.noConfusion hsuite
    simp only [parse_suite_arg, hdrop, hscan]
    simp only [List.get?_eq_getElem?] at hsuite
    simp [hlen, hsz, hlt, hsuite]

/-- C11.  `clar_report_errors` prints each record of the ledger once, in insertion order,
the record at position `j` with the number `1 + j`, prints nothing else, leaves the
ledger empty and every other variable as it was; a second call right after it prints
nothing and changes no state. -/
theorem clar_report_errors_drains (c : Clar) :
    (clar_report_errors c).output = c.output ++ report_loop 1 c.errors ∧
    (report_loop 1 c.errors).length = c.errors.length ∧
    (∀ j : Nat, (report_loop 1 c.errors)[j]? =
      (c.errors[j]?).map (Event.print_error (1 + j))) ∧
    (clar_report_errors c).errors = [] ∧
    clar_report_errors c =
      { c with output := c.output ++ report_loop 1 c.errors, errors := [] } ∧
    (clar_report_errors (clar_report_errors c)).output = (clar_report_errors c).output ∧
    clar_report_errors (clar_report_errors c) = clar_report_errors c := by
  refine ⟨rfl, report_loop_length 1 c.errors, fun j => report_loop_get 1 c.errors j, rfl, rfl,
    ?_, ?_⟩
  · simp [clar_report_errors, report_loop]
  · simp [clar_report_errors, report_loop]

theorem run_call_not_aborts (c : Clar) (k : Call) (h : k.aborts = false) :
    run_call c k = (Flow.ret, step c k) := by
  cases k with
  | clar__assert condition file line error_msg description should_abort =>
    by_cases hc : condition = 0
    · have ha : should_abort = 0 := by
        simpa [Call.aborts, Call.failure, Call.should_abort, hc] using h
      exact run_call_nonfatal c _ ha
    · simp [run_call, clar__assert, step, Call.failure, hc]
  | clar__assert_equal_s s1 s2 file line err should_abort =>
    by_cases hc : match_s s1 s2 = true
    · simp [run_call, clar__assert_equal_s, step, Call.failure, hc]
    · have ha : should_abort = 0 := by
        simpa [Call.aborts, Call.failure, Call.should_abort, hc] using h
      exact run_call_nonfatal c _ ha
  | clar__assert_equal_i i1 i2 file line err should_abort =>
    by_cases hc : i1 = i2
    · simp [run_call, clar__assert_equal_i, step, Call.failure, hc]
    · have ha : should_abort = 0 := by
        simpa [Call.aborts, Call.failure, Call.should_abort, hc] using h
      exact run_call_nonfatal c _ ha
  | cl_set_cleanup cleanup payload => simp [run_call, step]

theorem run_call_aborts_armed (c : Clar) (k : Call) (h : k.aborts = true)
    (ht : c.trampoline_enabled ≠ 0) : run_call c k = (Flow.longjmp, step c k) := by
  simp only [Call.aborts, Bool.and_eq_true, decide_eq_true_eq] at h
  obtain ⟨f, hf⟩ := Option.isSome_iff_exists.1 h.1
  exact run_call_fatal c k f ht hf h.2

theorem run_call_aborts_disarmed (c : Clar) (k : Call) (h : k.aborts = true)
    (ht : c.trampoline_enabled = 0) : (run_call c k).1 = Flow.exit (-1) := by
  simp only [Call.aborts, Bool.and_eq_true, decide_eq_true_eq] at h
  obtain ⟨h1, ha⟩ := h
  cases k with
  | clar__assert condition file line error_msg description should_abort =>
    simp only [Call.should_abort] at ha
    by_cases hc : condition = 0
    · simp [run_call, clar__assert, hc, ha, ht]
    · simp [Call.failure, hc] at h1
  | clar__assert_equal_s s1 s2 file line err should_abort =>
    simp only [Call.should_abort] at ha
    by_cases hc : match_s s1 s2 = true
    · simp [Call.failure, hc] at h1
    · simp [run_call, clar__assert_equal_s, clar__assert, hc, ha, ht]
  | clar__assert_equal_i i1 i2 file line err should_abort =>
    simp only [Call.should_abort] at ha
    by_cases hc : i1 = i2
    · simp [Call.failure, hc] at h1
    · simp [run_call, clar__assert_equal_i, clar__assert, hc, ha, ht]
  | cl_set_cleanup cleanup payload => simp [Call.failure] at h1

theorem step_trampoline (c : Clar) (k : Call) :
    (step c k).trampoline_enabled = c.trampoline_enabled :=
  (step_fields c k).2.2.2.2.2.1

/-- Calls made while the abort region is armed: they end with `longjmp` when one of them
aborts and return when none does, in the state reached by the calls up to and including
the first that aborts. -/
theorem run_calls_armed (c : Clar) (calls : List Call) (ht : c.trampoline_enabled ≠ 0) :
    run_calls c calls =
      (if calls.any Call.aborts then Flow.longjmp else Flow.ret,
        (executed calls).foldl step c) := by
  induction calls generalizing c with
  | nil => rfl
  | cons k rest ih =>
    by_cases hk : k.aborts = true
    · simp [run_calls, run_call_aborts_armed c k hk ht, executed, hk]
    · have hk2 : k.aborts = false := by simpa using hk
      simp only [run_calls, run_call_not_aborts c k hk2, executed, hk2, List.any_cons,
        Bool.false_or, List.foldl_cons]
      exact ih (step c k) (by rw [step_trampoline]; exact ht)

/-- Calls made while no abort region is armed: they return when none of them aborts, and
end the process with `exit(-1)` when one does. -/
theorem run_calls_disarmed (c : Clar) (calls : List Call) (ht : c.trampoline_enabled = 0) :
    (calls.any Call.aborts = false → run_calls c calls = (Flow.ret, calls.foldl step c)) ∧
    (calls.any Call.aborts = true → (run_calls c calls).1 = Flow.exit (-1)) := by
  induction calls generalizing c with
  | nil => exact ⟨fun _ => rfl, fun h => by simp at h⟩
  | cons k rest ih =>
    by_cases hk : k.aborts = true
    · refine ⟨fun h => by simp [hk] at h, fun _ => ?_⟩
      have := run_call_aborts_disarmed c k hk ht
      simp only [run_calls]
      rcases hr : run_call c k with ⟨fl, c1⟩
      rw [hr] at this
      simp only at this
      subst this
      rfl
    · have hk2 : k.aborts = false := by simpa using hk
      have ih2 := ih (step c k) (by rw [step_trampoline]; exact ht)
      simp only [run_calls, run_call_not_aborts c k hk2, List.any_cons, hk2, Bool.false_or,
        List.foldl_cons]
      exact ih2

theorem executed_append (a b : List Call) :
    executed (a ++ b) = if a.any Call.aborts then executed a else a ++ executed b := by
  induction a with
  | nil => simp
  | cons k rest ih =>
    by_cases hk : k.aborts = true
    · simp [executed, hk]
    · have hk2 : k.aborts = false := by simpa using hk
      have e1 : executed (k :: (rest ++ b)) = k :: executed (rest ++ b) := by
        simp [executed, hk2]
      have e2 : executed (k :: rest) = k :: executed rest := by simp [executed, hk2]
      rw [List.cons_append, e1, e2, ih, List.any_cons, hk2, Bool.false_or]
      split <;> rfl

theorem executed_of_not_any (calls : List Call) (h : calls.any Call.aborts = false) :
    executed calls = calls := by
  have := executed_append calls []
  simpa [h, executed] using this

/-- A call through an optional function pointer while the abort region is armed. -/
theorem call_opt_armed (img : Image) (c : Clar) (ev : Nat → Event) (ptr : Option Nat)
    (arg : Option Nat) (ht : c.trampoline_enabled ≠ 0) :
    ∃ d, ((match ptr with
          | some f => call_ptr img c (ev f) f arg
          | none => (Flow.ret, c)) : Flow × Clar) =
        (if (calls_of img ptr arg).any Call.aborts then Flow.longjmp else Flow.ret, d) ∧
      Reach c d (executed (calls_of img ptr arg)) (ptr.map ev).toList ∧
      d.trampoline_enabled = c.trampoline_enabled := by
  cases ptr with
  | none => exact ⟨c, rfl, by simpa [calls_of, executed] using Reach.refl c, rfl⟩
  | some f =>
    refine ⟨(executed (img.code f arg)).foldl step { c with output := c.output ++ [ev f] },
      ?_, ?_, ?_⟩
    · simp only [call_ptr, calls_of]
      exact run_calls_armed _ _ ht
    · have := (Reach.events c [ev f]).trans
        (Reach.foldl { c with output := c.output ++ [ev f] } (executed (img.code f arg)))
      simpa [calls_of] using this
    · rw [foldl_step_trampoline]

/-- A call through an optional function pointer while no abort region is armed. -/
theorem call_opt_disarmed (img : Image) (c : Clar) (ev : Nat → Event) (ptr : Option Nat)
    (arg : Option Nat) (ht : c.trampoline_enabled = 0) :
    ((calls_of img ptr arg).any Call.aborts = false →
      ∃ d, ((match ptr with
            | some f => call_ptr img c (ev f) f arg
            | none => (Flow.ret, c)) : Flow × Clar) = (Flow.ret, d) ∧
        Reach c d (calls_of img ptr arg) (ptr.map ev).toList ∧
        d.trampoline_enabled = 0) ∧
    ((calls_of img ptr arg).any Call.aborts = true →
      ((match ptr with
       | some f => call_ptr img c (ev f) f arg
       | none => (Flow.ret, c)) : Flow × Clar).1 = Flow.exit (-1)) := by
  cases ptr with
  | none =>
    exact ⟨fun _ => ⟨c, rfl, by simpa [calls_of] using Reach.refl c, ht⟩,
      fun h => by simp [calls_of] at h⟩
  | some f =>
    have hd := run_calls_disarmed { c with output := c.output ++ [ev f] } (img.code f arg) ht
    refine ⟨fun h => ⟨(img.code f arg).foldl step { c with output := c.output ++ [ev f] },
      ?_, ?_, ?_⟩, fun h => ?_⟩
    · simp only [call_ptr]
      exact hd.1 h
    · have := (Reach.events c [ev f]).trans
        (Reach.foldl { c with output := c.output ++ [ev f] } (img.code f arg))
      simpa [calls_of] using this
    · rw [foldl_step_trampoline]
      exact ht
    · simp only [call_ptr]
      exact hd.2 h

/-- The guarded block of a test, when it is left by return or by `longjmp`: the calls made
are those of setup and body up to and including the first that aborts. -/
theorem run_region_armed (img : Image) (c : Clar) (test initialise : clar_func)
    (ht : c.trampoline_enabled ≠ 0)
    (hfl : (run_region img c test initialise).1 = Flow.ret ∨
      (run_region img c test initialise).1 = Flow.longjmp) :
    Reach c (run_region img c test initialise).2 (executed (region_calls img test initialise))
      (region_invocations img test initialise) ∧
    (run_region img c test initialise).2.trampoline_enabled = c.trampoline_enabled := by
  obtain ⟨d1, e1, r1, t1⟩ := call_opt_armed img c Event.call_initialise initialise.ptr none ht
  by_cases hi : (calls_of img initialise.ptr none).any Call.aborts = true
  · have hr : run_region img c test initialise = (Flow.longjmp, d1) := by
      simp only [run_region]
      rw [e1]
      simp [hi]
    rw [hr]
    refine ⟨?_, t1⟩
    simpa [region_calls, executed_append, region_invocations, hi] using r1
  · have hi2 : (calls_of img initialise.ptr none).any Call.aborts = false := by simpa using hi
    rw [hi2] at e1
    simp only [Bool.false_eq_true, if_false] at e1
    rw [executed_of_not_any _ hi2] at r1
    cases hp : test.ptr with
    | none =>
      have hr : run_region img c test initialise = (Flow.fault, d1) := by
        simp only [run_region]
        rw [e1]
        simp [hp]
      rw [hr] at hfl
      simp at hfl
    | some t =>
      obtain ⟨d2, e2, r2, t2⟩ := call_opt_armed img d1 Event.call_test (some t) none
        (by rw [t1]; exact ht)
      have hr : run_region img c test initialise =
          (if (calls_of img (some t) none).any Call.aborts then Flow.longjmp else Flow.ret,
            d2) := by
        simp only [run_region]
        rw [e1]
        simp only [hp]
        exact e2
      rw [hr]
      refine ⟨?_, by rw [t2, t1]⟩
      have := r1.trans r2
      simpa [region_calls, executed_append, region_invocations, hi2, hp] using this

/-- The cleanup phase of a test, when it returns: neither the local cleanup nor the
teardown has aborted, and the state is `finish_test` of the state reached by their
calls. -/
theorem after_region_returns (img : Image) (d : Clar) (test cleanup : clar_func) (e : Int)
    (hret : (after_region img d test cleanup e).1 = Flow.ret) :
    ∃ d5, after_region img d test cleanup e = (Flow.ret, finish_test d5 test e) ∧
      Reach d d5
        (calls_of img d.local_cleanup d.local_cleanup_payload ++ calls_of img cleanup.ptr none)
        ((d.local_cleanup.map
            (fun f => Event.call_local_cleanup f d.local_cleanup_payload)).toList ++
          (cleanup.ptr.map Event.call_cleanup).toList) ∧
      d5.trampoline_enabled = 0 := by
  have h4 := call_opt_disarmed img { d with trampoline_enabled := 0 }
    (fun f => Event.call_local_cleanup f d.local_cleanup_payload)
    d.local_cleanup d.local_cleanup_payload rfl
  by_cases hlc : (calls_of img d.local_cleanup d.local_cleanup_payload).any Call.aborts = true
  · have hx := h4.2 hlc
    exfalso
    simp only [after_region] at hret
    rcases hr : ((match d.local_cleanup with
        | some f => call_ptr img { d with trampoline_enabled := 0 }
            (Event.call_local_cleanup f d.local_cleanup_payload) f d.local_cleanup_payload
        | none => (Flow.ret, { d with trampoline_enabled := 0 })) : Flow × Clar) with ⟨fl, c1⟩
    rw [hr] at hx hret
    simp only at hx
    subst hx
    simp at hret
  · obtain ⟨d4, e4, r4, t4⟩ := h4.1 (by simpa using hlc)
    have h5 := call_opt_disarmed img d4 Event.call_cleanup cleanup.ptr none t4
    by_cases htd : (calls_of img cleanup.ptr none).any Call.aborts = true
    · have hx := h5.2 htd
      exfalso
      simp only [after_region] at hret
      rw [e4] at hret
      rcases hr : ((match cleanup.ptr with
          | some f => call_ptr img d4 (Event.call_cleanup f) f none
          | none => (Flow.ret, d4)) : Flow × Clar) with ⟨fl, c1⟩
      rw [hr] at hx
      simp only at hx hret
      rw [hr] at hret
      subst hx
      simp at hret
    · obtain ⟨d5, e5, r5, t5⟩ := h5.1 (by simpa using htd)
      refine ⟨d5, ?_, ?_, t5⟩
      · simp only [after_region]
        rw [e4]
        simp only
        rw [e5]
      · have := ((Reach.trampoline d 0).trans r4).trans r5
        simpa using this

/-- A test that returns: the state is `finish_test` of the state reached by the calls of
setup and body up to and including the first that aborts, then those of the local
cleanup in force and of the teardown. -/
theorem clar_run_test_returns (img : Image) (c : Clar) (test initialise cleanup : clar_func)
    (hret : (clar_run_test img c test initialise cleanup).1 = Flow.ret) :
    ∃ d, clar_run_test img c test initialise cleanup =
        (Flow.ret, finish_test d test c.suite_errors) ∧
      Reach c d
        (executed (region_calls img test initialise) ++
          (calls_of img (cleanup_at_exit img c test initialise).1
              (cleanup_at_exit img c test initialise).2 ++
            calls_of img cleanup.ptr none))
        (region_invocations img test initialise ++
          (((cleanup_at_exit img c test initialise).1.map
              (fun f => Event.call_local_cleanup f
                (cleanup_at_exit img c test initialise).2)).toList ++
            (cleanup.ptr.map Event.call_cleanup).toList)) ∧
      d.trampoline_enabled = 0 := by
  rcases hr : run_region img { c with trampoline_enabled := 1 } test initialise with ⟨fl, d2⟩
  have hrun : (fl = Flow.ret ∨ fl = Flow.longjmp) ∧
      clar_run_test img c test initialise cleanup =
        after_region img d2 test cleanup c.suite_errors := by
    simp only [clar_run_test, hr] at hret ⊢
    cases fl <;> simp_all
  obtain ⟨hfl, hrun⟩ := hrun
  have hreg := run_region_armed img { c with trampoline_enabled := 1 } test initialise
    (by simp) (by rw [hr]; exact hfl)
  rw [hr] at hreg
  have r2 := (Reach.trampoline c 1).trans hreg.1
  simp only [List.nil_append] at r2
  have hc : d2.local_cleanup = (cleanup_at_exit img c test initialise).1 ∧
      d2.local_cleanup_payload = (cleanup_at_exit img c test initialise).2 := by
    have := r2.cleanup
    simp only [cleanup_at_exit, ← this, and_self]
  rw [hrun] at hret
  obtain ⟨d5, e5, r5, t5⟩ := after_region_returns img d2 test cleanup c.suite_errors hret
  rw [hc.1, hc.2] at r5
  exact ⟨d5, by rw [hrun, e5], r2.trans r5, t5⟩

/-- The function `after_region` is the local cleanup, then the teardown, then
`finish_test`, each step made only when the one before has returned. -/
theorem after_region_phases (img : Image) (d : Clar) (test cleanup : clar_func) (e : Int) :
    after_region img d test cleanup e =
      match local_cleanup_phase img d with
      | (Flow.ret, d4) =>
        (match teardown_phase img d4 cleanup with
         | (Flow.ret, d5) => (Flow.ret, finish_test d5 test e)
         | r => r)
      | r => r := by
  rfl

theorem finish_test_fields (d : Clar) (test : clar_func) (e : Int) :
    (finish_test d test e).test_count = d.test_count + 1 ∧
    (finish_test d test e).local_cleanup = none ∧
    (finish_test d test e).local_cleanup_payload = none ∧
    (finish_test d test e).trampoline_enabled = d.trampoline_enabled ∧
    (finish_test d test e).exit_on_error = d.exit_on_error ∧
    (finish_test d test e).total_errors = d.total_errors := by
  by_cases hm : d.report_errors_only = 0 <;> simp [finish_test, clar_report_errors, hm]

/-- A test that returns leaves `exit_on_error` as it was and has counted itself. -/
theorem run_one_returns_fields (img : Image) (suite : clar_suite) (d : Clar)
    (test : clar_func) (hret : (run_one img suite d test).1 = Flow.ret) :
    (run_one img suite d test).2.exit_on_error = d.exit_on_error ∧
    (run_one img suite d test).2.test_count = d.test_count + 1 := by
  obtain ⟨x, e, r, -⟩ := clar_run_test_returns img { d with active_test := some test.name }
    test suite.initialise suite.cleanup hret
  obtain ⟨g1, -, -, -, g5, -⟩ :=
    finish_test_fields x test ({ d with active_test := some test.name } : Clar).suite_errors
  simp only [run_one]
  rw [e]
  exact ⟨by rw [g5, r.exit_on_error], by rw [g1, r.test_count]⟩

theorem run_tests_passes (img : Image) (suite : clar_suite) (c : Clar)
    (tests : List clar_func) (h : passes img suite c tests = true) :
    run_tests img suite c tests = (Flow.ret, state_after img suite c tests) := by
  induction tests generalizing c with
  | nil => rfl
  | cons t rest ih =>
    simp only [passes, Bool.and_eq_true, decide_eq_true_eq, Bool.not_eq_true', stops,
      decide_eq_false_iff_not] at h
    obtain ⟨⟨h1, h2⟩, h3⟩ := h
    have hrun : run_tests img suite c (t :: rest) =
        match run_one img suite c t with
        | (Flow.ret, d) =>
          if d.exit_on_error ≠ 0 ∧ d.total_errors ≠ 0 then (Flow.ret, d)
          else run_tests img suite d rest
        | r => r := rfl
    rw [hrun]
    rcases hr : run_one img suite c t with ⟨fl, d⟩
    rw [hr] at h1 h2 h3
    simp only at h1 h2 h3
    subst h1
    simp only [h2, if_false, state_after, hr]
    exact ih d h3

theorem run_tests_halts (img : Image) (suite : clar_suite) (c : Clar)
    (pre post : List clar_func) (t : clar_func) (h : passes img suite c pre = true)
    (hh : (run_one img suite (state_after img suite c pre) t).1 ≠ Flow.ret ∨
      stops (run_one img suite (state_after img suite c pre) t).2 = true) :
    run_tests img suite c (pre ++ t :: post) =
      run_one img suite (state_after img suite c pre) t := by
  induction pre generalizing c with
  | nil =>
    simp only [state_after, List.nil_append] at hh ⊢
    have hrun : run_tests img suite c (t :: post) =
        match run_one img suite c t with
        | (Flow.ret, d) =>
          if d.exit_on_error ≠ 0 ∧ d.total_errors ≠ 0 then (Flow.ret, d)
          else run_tests img suite d post
        | r => r := rfl
    rw [hrun]
    rcases hr : run_one img suite c t with ⟨fl, d⟩
    rw [hr] at hh
    simp only [stops, decide_eq_true_eq] at hh
    cases fl with
    | ret =>
      rcases hh with hh | hh
      · exact absurd rfl hh
      · exact if_pos hh
    | longjmp => rfl
    | exit s => rfl
    | fault => rfl
  | cons u pre ih =>
    simp only [passes, Bool.and_eq_true, decide_eq_true_eq, Bool.not_eq_true', stops,
      decide_eq_false_iff_not] at h
    obtain ⟨⟨h1, h2⟩, h3⟩ := h
    have hrun : run_tests img suite c (u :: (pre ++ t :: post)) =
        match run_one img suite c u with
        | (Flow.ret, d) =>
          if d.exit_on_error ≠ 0 ∧ d.total_errors ≠ 0 then (Flow.ret, d)
          else run_tests img suite d (pre ++ t :: post)
        | r => r := rfl
    rw [List.cons_append, hrun]
    simp only [state_after] at hh ⊢
    rcases hr : run_one img suite c u with ⟨fl, d⟩
    rw [hr] at h1 h2 h3 hh
    simp only at h1 h2 h3 hh
    subst h1
    simp only [h2, if_false]
    exact ih d h3 hh

theorem passes_fields (img : Image) (suite : clar_suite) (c : Clar) (tests : List clar_func)
    (h : passes img suite c tests = true) :
    (state_after img suite c tests).exit_on_error = c.exit_on_error ∧
    (state_after img suite c tests).test_count = c.test_count + tests.length := by
  induction tests generalizing c with
  | nil => simp [state_after]
  | cons t rest ih =>
    simp only [passes, Bool.and_eq_true, decide_eq_true_eq] at h
    obtain ⟨⟨h1, -⟩, h3⟩ := h
    obtain ⟨f1, f2⟩ := run_one_returns_fields img suite c t h1
    obtain ⟨i1, i2⟩ := ih _ h3
    simp only [state_after, List.length_cons]
    refine ⟨by rw [i1, f1], ?_⟩
    rw [i2, f2]
    push_cast
    ring

theorem passes_eq_all_return (img : Image) (suite : clar_suite) (c : Clar)
    (tests : List clar_func) (h0 : c.exit_on_error = 0) :
    passes img suite c tests = all_return img suite c tests := by
  induction tests generalizing c with
  | nil => rfl
  | cons t rest ih =>
    simp only [passes, all_return]
    by_cases hret : (run_one img suite c t).1 = Flow.ret
    · have hx : (run_one img suite c t).2.exit_on_error = 0 := by
        rw [(run_one_returns_fields img suite c t hret).1, h0]
      simp [hret, stops, hx, ih _ hx]
    · simp [hret]

/-- The tests of a list either all pass through, or there is a first test that does not
return or after which the stop condition holds. -/
theorem passes_or_halts (img : Image) (suite : clar_suite) (c : Clar)
    (tests : List clar_func) :
    passes img suite c tests = true ∨
      ∃ (pre post : List clar_func) (t : clar_func), tests = pre ++ t :: post ∧
        passes img suite c pre = true ∧
        ((run_one img suite (state_after img suite c pre) t).1 ≠ Flow.ret ∨
          stops (run_one img suite (state_after img suite c pre) t).2 = true) := by
  induction tests generalizing c with
  | nil => exact Or.inl rfl
  | cons t rest ih =>
    by_cases h1 : (run_one img suite c t).1 = Flow.ret
    · by_cases h2 : stops (run_one img suite c t).2 = true
      · exact Or.inr ⟨[], rest, t, rfl, rfl, Or.inr h2⟩
      · rcases ih (run_one img suite c t).2 with h | ⟨pre, post, u, h3, h4, h5⟩
        · left
          simp [passes, h1, h2, h]
        · right
          refine ⟨t :: pre, post, u, by rw [h3]; rfl, ?_, h5⟩
          simp [passes, h1, h2, h4]
    · exact Or.inr ⟨[], rest, t, rfl, rfl, Or.inl h1⟩

/-- C12 (as amended).  `clar_run_suite` runs no test and changes nothing but the enabled
set of the category filter when the filter rejects the suite, or when `exit_on_error` is
set and `total_errors` is not zero.  Otherwise it enters its loop in the state
`suite_start`, where `suite_errors` is 0, and runs the tests in registration order:
all of them when every test returns and leaves the stop condition (`exit_on_error` set
and `total_errors` not zero) false, and else exactly the tests up to and including the
first one that does not return (it ends the process) or after which the stop condition
holds; the tests after that one have no part in the result, and one of the two cases
always applies.  A test that returns counts itself once and leaves `exit_on_error` as it
was, so that with `exit_on_error` 0 only a test that does not return ends the loop. -/
theorem clar_run_suite_tests (img : Image) (c : Clar) (suite : clar_suite) :
    ((clar_category_is_suite_enabled img.default_lit c.categorize_enabled suite).1 = 0 ∨
        (c.exit_on_error ≠ 0 ∧ c.total_errors ≠ 0) →
      clar_run_suite img c suite =
        (Flow.ret, { c with categorize_enabled :=
          (clar_category_is_suite_enabled img.default_lit c.categorize_enabled suite).2 })) ∧
    ((clar_category_is_suite_enabled img.default_lit c.categorize_enabled suite).1 ≠ 0 →
        ¬ (c.exit_on_error ≠ 0 ∧ c.total_errors ≠ 0) →
      (suite_start img c suite).suite_errors = 0 ∧
      (suite_start img c suite).test_count = c.test_count ∧
      (passes img suite (suite_start img c suite) suite.tests = true →
        clar_run_suite img c suite =
          (Flow.ret, state_after img suite (suite_start img c suite) suite.tests) ∧
        (clar_run_suite img c suite).2.test_count = c.test_count + suite.tests.length) ∧
      (∀ (pre post : List clar_func) (t : clar_func), suite.tests = pre ++ t :: post →
        passes img suite (suite_start img c suite) pre = true →
        ((run_one img suite (state_after img suite (suite_start img c suite) pre) t).1 ≠
            Flow.ret ∨
          stops (run_one img suite (state_after img suite (suite_start img c suite) pre)
            t).2 = true) →
        clar_run_suite img c suite =
          run_one img suite (state_after img suite (suite_start img c suite) pre) t ∧
        ((clar_run_suite img c suite).1 = Flow.ret →
          (clar_run_suite img c suite).2.test_count = c.test_count + pre.length + 1)) ∧
      (∀ l : List clar_func, passes img suite (suite_start img c suite) l = true →
        (state_after img suite (suite_start img c suite) l).exit_on_error =
          c.exit_on_error) ∧
      (c.exit_on_error = 0 → ∀ l : List clar_func,
        passes img suite (suite_start img c suite) l =
          all_return img suite (suite_start img c suite) l) ∧
      (passes img suite (suite_start img c suite) suite.tests = true ∨
        ∃ (pre post : List clar_func) (t : clar_func), suite.tests = pre ++ t :: post ∧
          passes img suite (suite_start img c suite) pre = true ∧
          ((run_one img suite (state_after img suite (suite_start img c suite) pre) t).1 ≠
              Flow.ret ∨
            stops (run_one img suite (state_after img suite (suite_start img c suite) pre)
              t).2 = true))) := by
  constructor
  · intro h
    by_cases h0 : (clar_category_is_suite_enabled img.default_lit c.categorize_enabled
        suite).1 = 0
    · simp [clar_run_suite, h0]
    · have h1 : c.exit_on_error ≠ 0 ∧ c.total_errors ≠ 0 := h.resolve_left h0
      simp [clar_run_suite, h0, h1]
  · intro h0 h1
    have hrun : clar_run_suite img c suite =
        run_tests img suite (suite_start img c suite) suite.tests := by
      simp only [clar_run_suite, h0, if_false, suite_start]
      rw [if_neg h1]
      by_cases hm : c.report_errors_only = 0 <;> simp [hm]
    have hcount : (suite_start img c suite).test_count = c.test_count := by
      simp [suite_start]
    have hexit : (suite_start img c suite).exit_on_error = c.exit_on_error := by
      simp [suite_start]
    refine ⟨by simp [suite_start], hcount, ?_, ?_, ?_, ?_, passes_or_halts img suite _ _⟩
    · intro hp
      rw [hrun, run_tests_passes img suite _ _ hp]
      exact ⟨rfl, by rw [(passes_fields img suite _ _ hp).2, hcount]⟩
    · intro pre post t hsplit hp hh
      rw [hrun, hsplit, run_tests_halts img suite _ pre post t hp hh]
      refine ⟨rfl, fun hret => ?_⟩
      rw [(run_one_returns_fields img suite _ t hret).2, (passes_fields img suite _ _ hp).2,
        hcount]
    · intro l hp
      rw [(passes_fields img suite _ _ hp).1, hexit]
    · intro he l
      exact passes_eq_all_return img suite _ l (by rw [hexit, he])

/-- C12, witness: the example suite of one test, run from the initial state, where the
empty enabled set lets it through and `exit_on_error` is 0. -/
theorem clar_run_suite_tests_witness :
    ((clar_category_is_suite_enabled example_image.default_lit
        Clar.init.categorize_enabled (example_suite none)).1 ≠ 0 ∧
      ¬ (Clar.init.exit_on_error ≠ 0 ∧ Clar.init.total_errors ≠ 0) ∧
      passes example_image (example_suite none) (suite_start example_image Clar.init
        (example_suite none)) (example_suite none).tests = true) ∧
    (clar_run_suite example_image Clar.init (example_suite none)).2.test_count =
      Clar.init.test_count + (example_suite none).tests.length :=
  ⟨⟨by decide, by decide, by decide⟩,
   (((clar_run_suite_tests example_image Clar.init (example_suite none)).2 (by decide)
      (by decide)).2.2.1 (by decide)).2⟩

/-- C12, counterexample to the claim as stated: `exit_on_error` is 0 and the filter lets
the suite of two tests through, yet the second test (function 1) is never called: the
local cleanup of the first test raises a fatal failure and the process exits with status
-1. -/
theorem clar_run_suite_exit_skips_tests :
    Clar.init.exit_on_error = 0 ∧
    (clar_category_is_suite_enabled example_image.default_lit Clar.init.categorize_enabled
      example_suite_two).1 = 1 ∧
    example_suite_two.tests = [example_func 3, example_func 1] ∧
    (clar_run_suite example_image Clar.init example_suite_two).1 = Flow.exit (-1) ∧
    Event.call_test 1 ∉ (clar_run_suite example_image Clar.init example_suite_two).2.output ∧
    (clar_run_suite example_image Clar.init example_suite_two).2.test_count = 0 := by
  decide

theorem any_aborts_eq_false (calls : List Call) :
    calls.any Call.aborts = false ↔ ∀ k ∈ calls, k.aborts = false := by
  simp [List.any_eq_false]

/-- The way the guarded block of a test is left while the abort region is armed: by
`longjmp` when a call of setup or body aborts, by return when none does. -/
theorem run_region_flow (img : Image) (c : Clar) (test initialise : clar_func) (t : Nat)
    (hp : test.ptr = some t) (ht : c.trampoline_enabled ≠ 0) :
    (run_region img c test initialise).1 =
      if (region_calls img test initialise).any Call.aborts then Flow.longjmp
      else Flow.ret := by
  obtain ⟨d1, e1, -, t1⟩ := call_opt_armed img c Event.call_initialise initialise.ptr none ht
  by_cases hi : (calls_of img initialise.ptr none).any Call.aborts = true
  · have hr : run_region img c test initialise = (Flow.longjmp, d1) := by
      simp only [run_region]
      rw [e1]
      simp [hi]
    rw [hr]
    simp [region_calls, List.any_append, hi]
  · have hi2 : (calls_of img initialise.ptr none).any Call.aborts = false := by simpa using hi
    rw [hi2] at e1
    simp only [Bool.false_eq_true, if_false] at e1
    obtain ⟨d2, e2, -, -⟩ := call_opt_armed img d1 Event.call_test (some t) none
      (by rw [t1]; exact ht)
    have hr : run_region img c test initialise =
        (if (calls_of img (some t) none).any Call.aborts then Flow.longjmp else Flow.ret,
          d2) := by
      simp only [run_region]
      rw [e1]
      simp only [hp]
      exact e2
    rw [hr]
    simp only [region_calls, List.any_append, hi2, Bool.false_or, hp]

/-- The cleanup phase of a test whose local cleanup and teardown do not abort returns,
in `finish_test` of a state reached by their calls. -/
theorem after_region_no_abort (img : Image) (d : Clar) (test cleanup : clar_func) (e : Int)
    (hlc : ∀ j ∈ calls_of img d.local_cleanup d.local_cleanup_payload, j.aborts = false)
    (htd : ∀ j ∈ calls_of img cleanup.ptr none, j.aborts = false) :
    ∃ d5, after_region img d test cleanup e = (Flow.ret, finish_test d5 test e) ∧
      Reach d d5
        (calls_of img d.local_cleanup d.local_cleanup_payload ++ calls_of img cleanup.ptr none)
        ((d.local_cleanup.map
            (fun f => Event.call_local_cleanup f d.local_cleanup_payload)).toList ++
          (cleanup.ptr.map Event.call_cleanup).toList) ∧
      d5.trampoline_enabled = 0 := by
  obtain ⟨d4, e4, r4, t4⟩ := (call_opt_disarmed img { d with trampoline_enabled := 0 }
    (fun f => Event.call_local_cleanup f d.local_cleanup_payload)
    d.local_cleanup d.local_cleanup_payload rfl).1 ((any_aborts_eq_false _).2 hlc)
  obtain ⟨d5, e5, r5, t5⟩ := (call_opt_disarmed img d4 Event.call_cleanup cleanup.ptr none
    t4).1 ((any_aborts_eq_false _).2 htd)
  refine ⟨d5, ?_, ?_, t5⟩
  · simp only [after_region]
    rw [e4]
    simp only
    rw [e5]
  · have := ((Reach.trampoline d 0).trans r4).trans r5
    simpa using this

/-- A test none of whose calls aborts returns; the state it returns in is `finish_test`
of a state reached by all its calls. -/
theorem run_test_no_abort_reach (img : Image) (c : Clar) (test initialise cleanup : clar_func)
    (t : Nat) (ht : test.ptr = some t)
    (hnf : ∀ k ∈ test_calls img c test initialise cleanup, k.aborts = false) :
    ∃ d, clar_run_test img c test initialise cleanup =
        (Flow.ret, finish_test d test c.suite_errors) ∧
      Reach c d (test_calls img c test initialise cleanup)
        (test_invocations img c test initialise cleanup) ∧
      d.trampoline_enabled = 0 := by
  have hreg : (region_calls img test initialise).any Call.aborts = false :=
    (any_aborts_eq_false _).2
      (fun k hk => hnf k (List.mem_append_left _ (List.mem_append_left _ hk)))
  have hini : (calls_of img initialise.ptr none).any Call.aborts = false := by
    simp only [region_calls, List.any_append, Bool.or_eq_false_iff] at hreg
    exact hreg.1
  have hfl := run_region_flow img { c with trampoline_enabled := 1 } test initialise t ht
    (by simp)
  rw [hreg] at hfl
  simp only [Bool.false_eq_true, if_false] at hfl
  have harm := run_region_armed img { c with trampoline_enabled := 1 } test initialise
    (by simp) (Or.inl hfl)
  rcases hr : run_region img { c with trampoline_enabled := 1 } test initialise with ⟨fl, d2⟩
  rw [hr] at hfl harm
  simp only at hfl
  subst hfl
  have r2 := (Reach.trampoline c 1).trans harm.1
  simp only [List.nil_append, executed_of_not_any _ hreg] at r2
  have hc : d2.local_cleanup = (cleanup_in_force img c test initialise).1 ∧
      d2.local_cleanup_payload = (cleanup_in_force img c test initialise).2 := by
    have := r2.cleanup
    simp only [cleanup_in_force, ← this, and_self]
  obtain ⟨d5, e5, r5, t5⟩ := after_region_no_abort img d2 test cleanup c.suite_errors
    (by
      intro k hk
      rw [hc.1, hc.2] at hk
      exact hnf k (List.mem_append_left _ (List.mem_append_right _ hk)))
    (fun k hk => hnf k (List.mem_append_right _ hk))
  refine ⟨d5, ?_, ?_, t5⟩
  · simp only [clar_run_test, hr]
    exact e5
  · have := r2.trans r5
    rw [hc.1, hc.2] at this
    simpa [test_calls, test_invocations, region_invocations, hini, List.append_assoc]
      using this

/-- C1 (as amended).  A test in which every assertion that fails is non-fatal (no call
of setup, body, local cleanup or teardown fails with `should_abort` set; assertions that
pass may be of either kind) and in which N assertions fail returns; `suite_errors` and
`total_errors` have each grown by exactly N.  When `report_errors_only` is 0, the N
records have been appended to the ledger in the order of the failures, and the test has
printed exactly one `clar_print_ontest`, with `failed` true exactly when N > 0.  When
`report_errors_only` is set, `clar_print_ontest` has not been called: the whole ledger,
the N records last, has been printed in insertion order numbered from 1, and the ledger
is empty. -/
theorem clar_run_test_nonfatal (img : Image) (c : Clar) (test initialise cleanup : clar_func)
    (t : Nat) (ht : test.ptr = some t)
    (hnf : ∀ k ∈ test_calls img c test initialise cleanup, k.aborts = false) :
    (clar_run_test img c test initialise cleanup).1 = Flow.ret ∧
    (clar_run_test img c test initialise cleanup).2.suite_errors =
      c.suite_errors + (failures (test_calls img c test initialise cleanup)).length ∧
    (clar_run_test img c test initialise cleanup).2.total_errors =
      c.total_errors + (failures (test_calls img c test initialise cleanup)).length ∧
    (c.report_errors_only = 0 →
      (clar_run_test img c test initialise cleanup).2.errors =
        c.errors ++ (failures (test_calls img c test initialise cleanup)).map
          (Failure.record c) ∧
      (clar_run_test img c test initialise cleanup).2.output =
        c.output ++ test_invocations img c test initialise cleanup ++
          [Event.print_ontest test.name (c.test_count + 1)
            (decide (0 < (failures (test_calls img c test initialise cleanup)).length))] ∧
      ((clar_run_test img c test initialise cleanup).2.output.drop c.output.length).countP
        Event.is_ontest = 1) ∧
    (c.report_errors_only ≠ 0 →
      (clar_run_test img c test initialise cleanup).2.errors = [] ∧
      (clar_run_test img c test initialise cleanup).2.output =
        c.output ++ test_invocations img c test initialise cleanup ++
          report_loop 1 (c.errors ++ (failures (test_calls img c test initialise cleanup)).map
            (Failure.record c)) ∧
      ((clar_run_test img c test initialise cleanup).2.output.drop c.output.length).countP
        Event.is_ontest = 0) := by
  obtain ⟨d, e, r, -⟩ := run_test_no_abort_reach img c test initialise cleanup t ht hnf
  rw [e]
  refine ⟨rfl, ?_, ?_, ?_, ?_⟩
  · by_cases hm : d.report_errors_only = 0 <;>
      simp [finish_test, clar_report_errors, hm, r.suite_errors]
  · by_cases hm : d.report_errors_only = 0 <;>
      simp [finish_test, clar_report_errors, hm, r.total_errors]
  · intro h0
    have hm : d.report_errors_only = 0 := by rw [r.report_errors_only, h0]
    have hout : (finish_test d test c.suite_errors).output =
        c.output ++ test_invocations img c test initialise cleanup ++
          [Event.print_ontest test.name (c.test_count + 1)
            (decide (0 < (failures (test_calls img c test initialise cleanup)).length))] := by
      simp [finish_test, hm, r.output, r.test_count, r.suite_errors]
    refine ⟨?_, hout, ?_⟩
    · simp [finish_test, hm, r.errors]
    · rw [hout, List.append_assoc, List.drop_left, List.countP_append,
        test_invocations_no_ontest]
      simp [Event.is_ontest]
  · intro h1
    have hm : d.report_errors_only ≠ 0 := by rw [r.report_errors_only]; exact h1
    have hout : (finish_test d test c.suite_errors).output =
        c.output ++ test_invocations img c test initialise cleanup ++
          report_loop 1 (c.errors ++
            (failures (test_calls img c test initialise cleanup)).map (Failure.record c)) := by
      simp [finish_test, clar_report_errors, hm, r.output, r.errors]
    refine ⟨?_, hout, ?_⟩
    · simp [finish_test, clar_report_errors, hm]
    · rw [hout, List.append_assoc, List.drop_left, List.countP_append,
        test_invocations_no_ontest, report_loop_no_ontest]

/-- C1, witness: a test whose body makes a passing assertion with `should_abort` set and
then fails once without aborting, run from the initial state. -/
theorem clar_run_test_nonfatal_witness :
    (∀ k ∈ test_calls example_image Clar.init (example_func 9) no_func no_func,
      k.aborts = false) ∧
    test_calls example_image Clar.init (example_func 9) no_func no_func =
      [passing 90 1, failing 91 0] ∧
    (clar_run_test example_image Clar.init (example_func 9) no_func no_func).2.total_errors =
      Clar.init.total_errors +
        (failures (test_calls example_image Clar.init (example_func 9) no_func
          no_func)).length :=
  ⟨by decide, by decide,
   (clar_run_test_nonfatal example_image Clar.init (example_func 9) no_func no_func 9 rfl
      (by decide)).2.2.1⟩

theorem executed_split (pre post : List Call) (k : Call)
    (hpre : ∀ j ∈ pre, j.aborts = false) (hk : k.aborts = true) :
    executed (pre ++ k :: post) = pre ++ [k] ∧
    (pre ++ k :: post).any Call.aborts = true := by
  have hp := (any_aborts_eq_false pre).2 hpre
  constructor
  · rw [executed_append, hp]
    simp [executed, hk]
  · simp [List.any_append, hk]

/-- When the calls of setup and body are `pre`, the aborting call `k` and `post`, and no
call of `pre` aborts, the setup aborts exactly when it is longer than `pre`. -/
theorem setup_aborts_iff (ini body pre post : List Call) (k : Call)
    (hsplit : ini ++ body = pre ++ k :: post)
    (hpre : ∀ j ∈ pre, j.aborts = false) (hk : k.aborts = true) :
    ini.any Call.aborts = true ↔ ¬ ini.length ≤ pre.length := by
  rcases List.append_eq_append_iff.mp hsplit with ⟨a, h1, -⟩ | ⟨b, h1, h2⟩
  · have hlen : ini.length ≤ pre.length := by rw [h1, List.length_append]; omega
    have hno : ini.any Call.aborts = false :=
      (any_aborts_eq_false ini).2
        (fun j hj => hpre j (by rw [h1]; exact List.mem_append_left _ hj))
    simp [hno, hlen]
  · cases b with
    | nil =>
      have hip : ini = pre := by simpa using h1
      have hno : ini.any Call.aborts = false := by
        rw [hip]; exact (any_aborts_eq_false pre).2 hpre
      constructor
      · intro h
        rw [hno] at h
        cases h
      · intro h
        exact absurd (by rw [hip]) h
    | cons x b =>
      simp only [List.cons_append, List.cons.injEq] at h2
      have hlen : ¬ ini.length ≤ pre.length := by
        rw [h1, List.length_append, List.length_cons]; omega
      have hany : ini.any Call.aborts = true := by
        rw [h1, ← h2.1]
        simp [List.any_append, hk]
      simp [hany, hlen]

/-- The guarded block of a test in which an aborting call follows calls that returned is
left by `longjmp`, in the state reached by the calls up to and including the aborting
one. -/
theorem run_region_fatal (img : Image) (c : Clar) (test initialise : clar_func) (t : Nat)
    (pre post : List Call) (k : Call)
    (ht : test.ptr = some t) (harm : c.trampoline_enabled ≠ 0)
    (hsplit : region_calls img test initialise = pre ++ k :: post)
    (hpre : ∀ j ∈ pre, j.aborts = false) (hk : k.aborts = true) :
    ∃ d, run_region img c test initialise = (Flow.longjmp, d) ∧
      Reach c d (pre ++ [k])
        ((initialise.ptr.map Event.call_initialise).toList ++
          if (calls_of img initialise.ptr none).length ≤ pre.length then [Event.call_test t]
          else []) := by
  obtain ⟨hex, hany⟩ := executed_split pre post k hpre hk
  have hfl := run_region_flow img c test initialise t ht harm
  rw [hsplit, hany] at hfl
  simp only [if_true] at hfl
  have hreach := (run_region_armed img c test initialise harm (Or.inr hfl)).1
  rw [hsplit, hex] at hreach
  have hiff := setup_aborts_iff (calls_of img initialise.ptr none)
    (calls_of img test.ptr none) pre post k hsplit hpre hk
  refine ⟨(run_region img c test initialise).2, ?_, ?_⟩
  · rw [← hfl]
  · by_cases hlen : (calls_of img initialise.ptr none).length ≤ pre.length
    · have hno : (calls_of img initialise.ptr none).any Call.aborts = false := by
        by_contra hne
        exact (hiff.1 (by simpa using hne)) hlen
      simpa [region_invocations, hno, hlen, ht] using hreach
    · have hyes : (calls_of img initialise.ptr none).any Call.aborts = true := hiff.2 hlen
      simpa [region_invocations, hyes, hlen] using hreach

/-- The cleanup phase of a test whose local cleanup does not abort calls the teardown
exactly once when there is one. -/
theorem after_region_cleanup_count (img : Image) (d : Clar) (test cleanup : clar_func)
    (e : Int)
    (hlc : ∀ j ∈ calls_of img d.local_cleanup d.local_cleanup_payload, j.aborts = false) :
    ∃ extra, (after_region img d test cleanup e).2.output = d.output ++ extra ∧
      extra.countP Event.is_cleanup = if cleanup.ptr.isSome then 1 else 0 := by
  obtain ⟨d4, e4, r4, -⟩ := (call_opt_disarmed img { d with trampoline_enabled := 0 }
    (fun f => Event.call_local_cleanup f d.local_cleanup_payload)
    d.local_cleanup d.local_cleanup_payload rfl).1 ((any_aborts_eq_false _).2 hlc)
  obtain ⟨lcev, hlcev⟩ : ∃ lcev, lcev = (d.local_cleanup.map
      (fun f => Event.call_local_cleanup f d.local_cleanup_payload)).toList := ⟨_, rfl⟩
  have h4 : d4.output = d.output ++ lcev := by rw [hlcev]; exact r4.output
  have hc4 : lcev.countP Event.is_cleanup = 0 := by
    rw [hlcev]
    cases d.local_cleanup <;> simp [Event.is_cleanup]
  simp only [after_region]
  rw [e4]
  simp only
  cases hp : cleanup.ptr with
  | none =>
    obtain ⟨fin, g1, g2⟩ := finish_test_output d4 test e
    refine ⟨lcev ++ fin, ?_, ?_⟩
    · simp only [g1, h4, List.append_assoc]
    · simp [List.countP_append, hc4, g2]
  | some f =>
    obtain ⟨extra, x1, x2, -⟩ := run_calls_output
      { d4 with output := d4.output ++ [Event.call_cleanup f] } (img.code f none)
    simp only [call_ptr]
    rcases hr : run_calls { d4 with output := d4.output ++ [Event.call_cleanup f] }
      (img.code f none) with ⟨fl, d5⟩
    rw [hr] at x1
    simp only at x1
    have hcount : (lcev ++ Event.call_cleanup f :: extra).countP Event.is_cleanup = 1 := by
      simp [List.countP_append, List.countP_cons, hc4, x2, Event.is_cleanup]
    have hout : d5.output = d.output ++ (lcev ++ Event.call_cleanup f :: extra) := by
      simp only [x1, h4, List.append_assoc, List.singleton_append]
    cases fl with
    | ret =>
      obtain ⟨fin, g1, g2⟩ := finish_test_output d5 test e
      refine ⟨(lcev ++ Event.call_cleanup f :: extra) ++ fin, ?_, ?_⟩
      · simp only [g1, hout, List.append_assoc]
      · rw [List.countP_append, hcount, g2]
        simp
    | longjmp => exact ⟨_, hout, by rw [hcount]; simp⟩
    | exit s => exact ⟨_, hout, by rw [hcount]; simp⟩
    | fault => exact ⟨_, hout, by rw [hcount]; simp⟩

/-- The cleanup phase of a test whose local cleanup aborts: the process exits with status
-1 and the teardown has not been called. -/
theorem after_region_cleanup_aborts (img : Image) (d : Clar) (test cleanup : clar_func)
    (e : Int)
    (hlc : ∃ j ∈ calls_of img d.local_cleanup d.local_cleanup_payload, j.aborts = true) :
    (after_region img d test cleanup e).1 = Flow.exit (-1) ∧
    ∃ extra, (after_region img d test cleanup e).2.output = d.output ++ extra ∧
      extra.countP Event.is_cleanup = 0 := by
  have hany : (calls_of img d.local_cleanup d.local_cleanup_payload).any Call.aborts = true := by
    obtain ⟨j, hj, hja⟩ := hlc
    exact List.any_eq_true.2 ⟨j, hj, hja⟩
  cases hl : d.local_cleanup with
  | none => simp [hl, calls_of] at hany
  | some f =>
    rw [hl] at hany
    simp only [calls_of] at hany
    have hx := (run_calls_disarmed
      { d with trampoline_enabled := 0,
               output := d.output ++ [Event.call_local_cleanup f d.local_cleanup_payload] }
      (img.code f d.local_cleanup_payload) rfl).2 hany
    obtain ⟨extra, x1, x2, -⟩ := run_calls_output
      { d with trampoline_enabled := 0,
               output := d.output ++ [Event.call_local_cleanup f d.local_cleanup_payload] }
      (img.code f d.local_cleanup_payload)
    have hphase : local_cleanup_phase img d = run_calls
        { d with trampoline_enabled := 0,
                 output := d.output ++ [Event.call_local_cleanup f d.local_cleanup_payload] }
        (img.code f d.local_cleanup_payload) := by
      simp only [local_cleanup_phase, hl, call_ptr]
    rw [after_region_phases, hphase]
    rcases hr : run_calls
        { d with trampoline_enabled := 0,
                 output := d.output ++ [Event.call_local_cleanup f d.local_cleanup_payload] }
        (img.code f d.local_cleanup_payload) with ⟨fl, c1⟩
    rw [hr] at hx x1
    simp only at hx x1
    subst hx
    refine ⟨rfl, Event.call_local_cleanup f d.local_cleanup_payload :: extra, ?_, ?_⟩
    · simp only [x1, List.append_assoc, List.singleton_append]
    · simp [List.countP_cons, x2, Event.is_cleanup]

/-- C2 (as amended).  In a test whose setup and body make the calls `pre`, then the
failing fatal call `k`, then `post`, where the calls of `pre` have returned (none of
them fails with `should_abort` set), the guarded block is left by `longjmp` right after
`k`: at that point the ledger holds the records of the failures of `pre` and then
exactly one record for `k`, the counters have grown accordingly, and none of the calls
of `post` is made (the body is not even called when `k` is in the setup);
`clar_run_test` goes on with its cleanup phase from that state.  If the local cleanup
in force raises no fatal failure, the teardown is then called exactly once when present,
and if the teardown raises none either, `clar_run_test` returns with `total_errors`
grown by the failures of `pre`, `k`, the local cleanup and the teardown only.  If the
local cleanup in force raises a fatal failure, the process exits with status -1 and the
teardown has not been called. -/
theorem clar_run_test_fatal (img : Image) (c : Clar) (test initialise cleanup : clar_func)
    (t : Nat) (pre post : List Call) (k : Call) (f : Failure)
    (ht : test.ptr = some t)
    (hsplit : region_calls img test initialise = pre ++ k :: post)
    (hpre : ∀ j ∈ pre, j.aborts = false)
    (hf : k.failure = some f) (ha : k.should_abort ≠ 0) :
    ∃ d, run_region img { c with trampoline_enabled := 1 } test initialise =
        (Flow.longjmp, d) ∧
      d.errors = c.errors ++ (failures pre).map (Failure.record c) ++ [f.record c] ∧
      d.suite_errors = c.suite_errors + (failures pre).length + 1 ∧
      d.total_errors = c.total_errors + (failures pre).length + 1 ∧
      d.output = c.output ++ ((initialise.ptr.map Event.call_initialise).toList ++
        if (calls_of img initialise.ptr none).length ≤ pre.length then [Event.call_test t]
        else []) ∧
      clar_run_test img c test initialise cleanup =
        after_region img d test cleanup c.suite_errors ∧
      ((∀ j ∈ calls_of img
            (registered (c.local_cleanup, c.local_cleanup_payload) (pre ++ [k])).1
            (registered (c.local_cleanup, c.local_cleanup_payload) (pre ++ [k])).2,
          j.aborts = false) →
        ((clar_run_test img c test initialise cleanup).2.output.drop c.output.length).countP
          Event.is_cleanup = (if cleanup.ptr.isSome then 1 else 0) ∧
        ((∀ j ∈ calls_of img cleanup.ptr none, j.aborts = false) →
          (clar_run_test img c test initialise cleanup).1 = Flow.ret ∧
          (clar_run_test img c test initialise cleanup).2.total_errors =
            c.total_errors + (failures pre).length + 1 +
              (failures (calls_of img
                (registered (c.local_cleanup, c.local_cleanup_payload) (pre ++ [k])).1
                (registered (c.local_cleanup, c.local_cleanup_payload)
                  (pre ++ [k])).2)).length +
              (failures (calls_of img cleanup.ptr none)).length)) ∧
      ((∃ j ∈ calls_of img
            (registered (c.local_cleanup, c.local_cleanup_payload) (pre ++ [k])).1
            (registered (c.local_cleanup, c.local_cleanup_payload) (pre ++ [k])).2,
          j.aborts = true) →
        (clar_run_test img c test initialise cleanup).1 = Flow.exit (-1) ∧
        ((clar_run_test img c test initialise cleanup).2.output.drop c.output.length).countP
          Event.is_cleanup = 0) := by
  have hk : k.aborts = true := by simp [Call.aborts, hf, ha]
  obtain ⟨d, e, r⟩ := run_region_fatal img { c with trampoline_enabled := 1 } test initialise t
    pre post k ht (by simp) hsplit hpre hk
  have r := (Reach.trampoline c 1).trans r
  simp only [List.nil_append] at r
  have hfail : failures (pre ++ [k]) = failures pre ++ [f] := by
    simp [failures, List.filterMap_append, hf]
  have hreg : d.local_cleanup =
        (registered (c.local_cleanup, c.local_cleanup_payload) (pre ++ [k])).1 ∧
      d.local_cleanup_payload =
        (registered (c.local_cleanup, c.local_cleanup_payload) (pre ++ [k])).2 := by
    have := r.cleanup
    simp only [← this, and_self]
  have hrun : clar_run_test img c test initialise cleanup =
      after_region img d test cleanup c.suite_errors := by
    simp only [clar_run_test, e]
  have hevs : (((initialise.ptr.map Event.call_initialise).toList ++
      if (calls_of img initialise.ptr none).length ≤ pre.length then [Event.call_test t]
      else []) : List Event).countP Event.is_cleanup = 0 := by
    cases initialise.ptr <;> split <;> simp [Event.is_cleanup]
  refine ⟨d, e, ?_, ?_, ?_, r.output, hrun, ?_, ?_⟩
  · rw [r.errors, hfail, List.map_append, List.append_assoc]
    rfl
  · rw [r.suite_errors, hfail, List.length_append]
    push_cast; simp; ring
  · rw [r.total_errors, hfail, List.length_append]
    push_cast; simp; ring
  · intro hlc
    have hlc2 : ∀ j ∈ calls_of img d.local_cleanup d.local_cleanup_payload,
        j.aborts = false := by
      rw [hreg.1, hreg.2]; exact hlc
    constructor
    · obtain ⟨extra, x1, x2⟩ :=
        after_region_cleanup_count img d test cleanup c.suite_errors hlc2
      rw [hrun, x1, r.output, List.append_assoc, List.drop_left, List.countP_append, x2,
        hevs, Nat.zero_add]
    · intro htd
      obtain ⟨d5, e5, r5, -⟩ :=
        after_region_no_abort img d test cleanup c.suite_errors hlc2 htd
      rw [hrun, e5]
      refine ⟨rfl, ?_⟩
      have h5 : (finish_test d5 test c.suite_errors).total_errors = d5.total_errors := by
        by_cases hm : d5.report_errors_only = 0 <;> simp [finish_test, clar_report_errors, hm]
      rw [h5, r5.total_errors, r.total_errors, hfail, failures_append, hreg.1, hreg.2]
      simp only [List.length_append, List.length_singleton]
      push_cast; ring
  · intro hlc
    have hlc2 : ∃ j ∈ calls_of img d.local_cleanup d.local_cleanup_payload,
        j.aborts = true := by
      rw [hreg.1, hreg.2]; exact hlc
    obtain ⟨hx, extra, x1, x2⟩ :=
      after_region_cleanup_aborts img d test cleanup c.suite_errors hlc2
    refine ⟨by rw [hrun, hx], ?_⟩
    rw [hrun, x1, r.output, List.append_assoc, List.drop_left, List.countP_append, x2, hevs]

/-- C2, witness: a test whose body makes a passing assertion with `should_abort` set,
registers function 9 as local cleanup, fails with abort and would then fail once more;
the teardown is function 5.  Function 9 raises no fatal failure, and the teardown is
called exactly once. -/
theorem clar_run_test_fatal_witness :
    (region_calls example_image (example_func 10) no_func =
        [passing 100 1, Call.cl_set_cleanup (some 9) (some 99)] ++
          failing 101 1 :: [failing 102 0] ∧
      (∀ j ∈ [passing 100 1, Call.cl_set_cleanup (some 9) (some 99)], j.aborts = false) ∧
      (∀ j ∈ calls_of example_image
          (registered (Clar.init.local_cleanup, Clar.init.local_cleanup_payload)
            ([passing 100 1, Call.cl_set_cleanup (some 9) (some 99)] ++ [failing 101 1])).1
          (registered (Clar.init.local_cleanup, Clar.init.local_cleanup_payload)
            ([passing 100 1, Call.cl_set_cleanup (some 9) (some 99)] ++ [failing 101 1])).2,
        j.aborts = false)) ∧
    ((clar_run_test example_image Clar.init (example_func 10) no_func
      (example_func 5)).2.output.drop Clar.init.output.length).countP Event.is_cleanup =
      (if (example_func 5).ptr.isSome then 1 else 0) :=
  ⟨⟨by decide, by decide, by decide⟩,
   (clar_run_test_fatal example_image Clar.init (example_func 10) no_func (example_func 5) 10
      [passing 100 1, Call.cl_set_cleanup (some 9) (some 99)] [failing 102 0] (failing 101 1)
      ⟨"t.c".toList, 101, "failed".toList, none⟩ rfl (by decide) (by decide) (by decide)
      (by decide)).elim (fun _ h => (h.2.2.2.2.2.2.1 (by decide)).1)⟩

end ClarMain
